import Mathlib

/-!
Verification of `VolumeCurve::volIndexToDb`.

Shallow embedding of `VolumeCurve::volIndexToDb` (src/VolumeCurve.cpp, lines 26-83)
and the properties of it that the specification states.

Conventions of the embedding.

* `int` values are mathematical integers (`Int`): signed overflow is undefined in C++,
  so the model describes the executions in which no signed operation overflows.
  The one conversion the source writes out, `static_cast<uint32_t>(volIdx)`, is the
  explicit reduction modulo `2 ^ 32`.
* `/` on `int` is `Int.tdiv` (truncation toward zero); a zero divisor is a fault.
* `mCurvePoints[i]` outside the vector is a fault, as is a failed `ALOG_ASSERT`
  (the file sets `LOG_NDEBUG` to 0, so the assertions are compiled in).
* The `float` result is kept symbolic (`Decibels`): which branch produced it and from
  which integers. `Decibels.toReal` gives its value in exact real arithmetic.
-/

namespace android

/-- Modelled from the spec: the declaration of `CurvePoint` (VolumeCurve.h) is not among
the sources. The spec gives a control point as an integer index and an integer
attenuation in hundredths of a decibel. -/
structure CurvePoint where
  mIndex : Int
  mAttenuationInMb : Int
deriving DecidableEq, Repr

/-- Ways in which an evaluation can stop without a value. -/
inductive Fault where
  /-- Line 28: `ALOG_ASSERT(!mCurvePoints.isEmpty(), "Invalid volume curve")`. -/
  | invalidVolumeCurve
  /-- Line 50: `ALOG_ASSERT(volIndexMin != volIndexMax, "Invalid volume index range & value: 0")`. -/
  | invalidVolumeIndexRange
  /-- An access `mCurvePoints[i]` with `i` not below the size. -/
  | outOfBounds
  /-- An integer division by zero. -/
  | divideByZero
deriving DecidableEq, Repr

/-- The `float` that `volIndexToDb` returns, kept symbolic. -/
inductive Decibels where
  /-- Value `NAN` (lines 30 and 51). -/
  | nan
  /-- Value `VOLUME_MIN_DB` (lines 35 and 64). -/
  | volumeMinDb
  /-- Value `mAttenuationInMb / 100.0f` of one control point (lines 60 and 66). -/
  | attenuation (mAttenuationInMb : Int)
  /-- Value `minDb + logFactor * (maxDb - minDb)` of lines 70-77, built from the attenuations
  of the two bracketing points, `volIdx`, and the indices of the two bracketing points. -/
  | logInterp (minMb maxMb volIdx minIdx maxIdx : Int)
deriving DecidableEq, Repr

instance instDecidableEqExcept {ε α : Type} [DecidableEq ε] [DecidableEq α] :
    DecidableEq (Except ε α)
  | .ok a, .ok b => if h : a = b then isTrue (by rw [h]) else isFalse (fun h2 => h (by cases h2; rfl))
  | .error a, .error b =>
    if h : a = b then isTrue (by rw [h]) else isFalse (fun h2 => h (by cases h2; rfl))
  | .ok _, .error _ => isFalse (fun h => by cases h)
  | .error _, .ok _ => isFalse (fun h => by cases h)

/-- Conversion `static_cast<uint32_t>(x)` of line 63. -/
def toUint32 (x : Int) : Int := x % 4294967296

/-- Access `v[i]` of the vector of control points. -/
def elemAt (v : List CurvePoint) (i : Nat) : Except Fault CurvePoint :=
  match v[i]? with
  | some p => .ok p
  | none => .error .outOfBounds

/-- Division `a / b` on `int`. -/
def intDiv (a b : Int) : Except Fault Int :=
  if b = 0 then .error .divideByZero else .ok (a.tdiv b)

/-- Modelled from the spec: `SortedVector::orderOf` is library code outside the sources.
Step 4 of the spec: the smallest rank `p` such that `points[p].index >= curveIndex`
(the size of the vector when there is none); points are ordered by `mIndex`. -/
def orderOf : List CurvePoint → CurvePoint → Nat
  | [], _ => 0
  | p :: ps, item => if item.mIndex ≤ p.mIndex then 0 else orderOf ps item + 1

/-- Lines 32-42: the range remap of `indexInUi`. The result `none` is the forced mute of
line 35; `some c` is the value of `indexInUi` after line 42. -/
def remapIndex (indexInUi volIndexMin volIndexMax : Int) : Option Int :=
  if indexInUi < volIndexMin then
    if indexInUi = 0 then none else some volIndexMin
  else if indexInUi > volIndexMax then some volIndexMax
  else some indexInUi

/-- Lines 44-56: the curve index `volIdx` computed from the remapped `indexInUi`. -/
def curveIndex (mCurvePoints : List CurvePoint) (indexInUi volIndexMin volIndexMax : Int) :
    Except Fault Int :=
  let nbCurvePoints := mCurvePoints.length
  if volIndexMin = volIndexMax then
    if indexInUi = volIndexMin then .ok volIndexMin
    else .error .invalidVolumeIndexRange
  else
    match elemAt mCurvePoints (nbCurvePoints - 1) with
    | .error e => .error e
    | .ok last =>
      match elemAt mCurvePoints 0 with
      | .error e => .error e
      | .ok first =>
        let nbSteps := 1 + last.mIndex - first.mIndex
        intDiv (nbSteps * (indexInUi - volIndexMin)) (volIndexMax - volIndexMin)

/-- Lines 58-82: the lookup of `volIdx` in the curve. The comparison of line 63 is made in
`uint32_t`: the left side by the written cast, the right side by its type (or, for a signed
field, by the usual arithmetic conversion), hence `toUint32` on both sides. -/
def lookupDb (mCurvePoints : List CurvePoint) (volIdx : Int) : Except Fault Decibels :=
  let nbCurvePoints := mCurvePoints.length
  let indexInUiPosition := orderOf mCurvePoints ⟨volIdx, 0⟩
  if indexInUiPosition ≥ nbCurvePoints then
    match elemAt mCurvePoints (nbCurvePoints - 1) with
    | .error e => .error e
    | .ok last => .ok (.attenuation last.mAttenuationInMb)
  else if indexInUiPosition = 0 then
    match elemAt mCurvePoints 0 with
    | .error e => .error e
    | .ok first =>
      if toUint32 volIdx ≠ toUint32 first.mIndex then .ok .volumeMinDb
      else .ok (.attenuation first.mAttenuationInMb)
  else
    match elemAt mCurvePoints (indexInUiPosition - 1) with
    | .error e => .error e
    | .ok lo =>
      match elemAt mCurvePoints indexInUiPosition with
      | .error e => .error e
      | .ok hi =>
        .ok (.logInterp lo.mAttenuationInMb hi.mAttenuationInMb volIdx lo.mIndex hi.mIndex)

/-- Method `VolumeCurve::volIndexToDb` (lines 26-83) on the curve `mCurvePoints`. -/
def volIndexToDb (mCurvePoints : List CurvePoint) (indexInUi volIndexMin volIndexMax : Int) :
    Except Fault Decibels :=
  if mCurvePoints.isEmpty then .error .invalidVolumeCurve
  else if volIndexMin < 0 ∨ volIndexMax < 0 then .ok .nan
  else
    match remapIndex indexInUi volIndexMin volIndexMax with
    | none => .ok .volumeMinDb
    | some indexInUi =>
      match curveIndex mCurvePoints indexInUi volIndexMin volIndexMax with
      | .error e => .error e
      | .ok volIdx => lookupDb mCurvePoints volIdx

/-- Line 76: `log10(1 + 9 * normalized) / log10(10)` in exact real arithmetic. -/
noncomputable def logFactor (normalized : ℝ) : ℝ :=
  Real.logb 10 (1 + 9 * normalized) / Real.logb 10 10

/-- Value of a result in exact real arithmetic; `NAN` has none. The constant
`VOLUME_MIN_DB` comes from a header outside the sources and is a parameter. -/
noncomputable def Decibels.toReal (VOLUME_MIN_DB : ℝ) : Decibels → Option ℝ
  | .nan => none
  | .volumeMinDb => some VOLUME_MIN_DB
  | .attenuation mb => some ((mb : ℝ) / 100)
  | .logInterp minMb maxMb volIdx minIdx maxIdx =>
    let minDb : ℝ := (minMb : ℝ) / 100
    let maxDb : ℝ := (maxMb : ℝ) / 100
    let normalized : ℝ := ((volIdx : ℝ) - (minIdx : ℝ)) / ((maxIdx : ℝ) - (minIdx : ℝ))
    some (minDb + logFactor normalized * (maxDb - minDb))

/-- The spec example curve `{(0, -8000), (50, -2000), (100, 0)}`. -/
def exampleCurve : List CurvePoint := [⟨0, -8000⟩, ⟨50, -2000⟩, ⟨100, 0⟩]

/-- Smallest attenuation among the control points (0 on the empty curve). -/
def minAttenuation : List CurvePoint → Int
  | [] => 0
  | [p] => p.mAttenuationInMb
  | p :: q :: ps => min p.mAttenuationInMb (minAttenuation (q :: ps))

/-- Largest attenuation among the control points (0 on the empty curve). -/
def maxAttenuation : List CurvePoint → Int
  | [] => 0
  | [p] => p.mAttenuationInMb
  | p :: q :: ps => max p.mAttenuationInMb (maxAttenuation (q :: ps))

/-- Clamp of `i` into `[lo, hi]`. -/
def clamp (i lo hi : Int) : Int := max lo (min i hi)

/-- Invariant of the sorted vector of control points: strictly increasing, hence unique,
indices. -/
def SortedByIndex (v : List CurvePoint) : Prop :=
  v.Pairwise (fun a b => a.mIndex < b.mIndex)

/-- Attenuation strictly increasing along the curve. -/
def AttenuationIncreasing (v : List CurvePoint) : Prop :=
  v.Pairwise (fun a b => a.mAttenuationInMb < b.mAttenuationInMb)

instance instDecidableAttenuationIncreasing (v : List CurvePoint) :
    Decidable (AttenuationIncreasing v) := by
  unfold AttenuationIncreasing; infer_instance

/-- Order of two results by their values in exact real arithmetic, `VOLUME_MIN_DB` standing
for the mute result; a `NAN` is not comparable. -/
def Decibels.le (VOLUME_MIN_DB : ℝ) (a b : Decibels) : Prop :=
  ∃ x y : ℝ, a.toReal VOLUME_MIN_DB = some x ∧ b.toReal VOLUME_MIN_DB = some y ∧ x ≤ y

/-- A two-point curve whose first point lies below -758 dB. -/
def steepCurve : List CurvePoint := [⟨1, -80000⟩, ⟨100, 0⟩]

/-- A two-point curve whose first index is not 0 or 1. -/
def offsetCurve : List CurvePoint := [⟨10, -5000⟩, ⟨20, 0⟩]

instance instDecidableSortedByIndex (v : List CurvePoint) : Decidable (SortedByIndex v) := by
  unfold SortedByIndex; infer_instance

/-! ## Range remap -/

theorem remapIndex_eq_clamp (i lo hi : Int) (hle : lo ≤ hi) (hmute : ¬ (i = 0 ∧ 0 < lo)) :
    remapIndex i lo hi = some (clamp i lo hi) := by
  unfold remapIndex clamp
  by_cases h1 : i < lo
  · have h0 : i ≠ 0 := fun h => hmute ⟨h, by omega⟩
    simp only [h1, h0, if_true, if_false]
    congr 1
    omega
  · by_cases h2 : i > hi
    · simp only [h1, h2, if_true, if_false]
      congr 1
      omega
    · simp only [h1, h2, if_false]
      congr 1
      omega

theorem volIndexToDb_congr_remap (curve : List CurvePoint) (i j lo hi : Int)
    (h : remapIndex i lo hi = remapIndex j lo hi) :
    volIndexToDb curve i lo hi = volIndexToDb curve j lo hi := by
  unfold volIndexToDb
  rw [h]

theorem isEmpty_eq_false_of_ne_nil {curve : List CurvePoint} (hne : curve ≠ []) :
    curve.isEmpty = false := by
  cases curve with
  | nil => exact absurd rfl hne
  | cons p ps => rfl

/-! ## Vector access -/

theorem elemAt_eq_ok {v : List CurvePoint} {i : Nat} {x : CurvePoint} (h : v[i]? = some x) :
    elemAt v i = .ok x := by
  unfold elemAt
  rw [h]

theorem getElem?_zero_head (v : List CurvePoint) (hne : v ≠ []) : v[0]? = some (v.head hne) := by
  cases v with
  | nil => exact absurd rfl hne
  | cons p ps => simp

theorem elemAt_head (v : List CurvePoint) (hne : v ≠ []) : elemAt v 0 = .ok (v.head hne) :=
  elemAt_eq_ok (getElem?_zero_head v hne)

theorem getElem?_last (v : List CurvePoint) (hne : v ≠ []) :
    v[v.length - 1]? = some (v.getLast hne) := by
  rw [← List.getLast?_eq_getElem?, List.getLast?_eq_getLast v hne]

theorem elemAt_last (v : List CurvePoint) (hne : v ≠ []) :
    elemAt v (v.length - 1) = .ok (v.getLast hne) :=
  elemAt_eq_ok (getElem?_last v hne)

/-! ## Rank of an index in the curve -/

theorem orderOf_le_length (v : List CurvePoint) (item : CurvePoint) :
    orderOf v item ≤ v.length := by
  induction v with
  | nil => simp [orderOf]
  | cons p ps ih =>
    unfold orderOf
    split
    · exact Nat.zero_le _
    · simpa using ih

/-- Every point of rank below `orderOf v item` has a smaller index than `item`. -/
theorem orderOf_lt_index (v : List CurvePoint) (item : CurvePoint) :
    ∀ (q : Nat) (x : CurvePoint), q < orderOf v item → v[q]? = some x →
      x.mIndex < item.mIndex := by
  induction v with
  | nil => intro q x hq; simp [orderOf] at hq
  | cons p ps ih =>
    intro q x hq hx
    unfold orderOf at hq
    split at hq
    · exact absurd hq (Nat.not_lt_zero _)
    · rename_i hlt
      cases q with
      | zero =>
        simp at hx
        subst hx
        omega
      | succ q =>
        simp at hx
        exact ih q x (by omega) hx

/-- The point of rank `orderOf v item`, when there is one, has an index at least that of
`item`. -/
theorem orderOf_ge_index (v : List CurvePoint) (item : CurvePoint) :
    ∀ x : CurvePoint, v[orderOf v item]? = some x → item.mIndex ≤ x.mIndex := by
  induction v with
  | nil => intro x hx; simp at hx
  | cons p ps ih =>
    intro x hx
    unfold orderOf at hx
    split at hx
    · rename_i hle
      simp at hx
      subst hx
      exact hle
    · simp at hx
      exact ih x hx

theorem orderOf_mono (v : List CurvePoint) (a b : CurvePoint) (hab : a.mIndex ≤ b.mIndex) :
    orderOf v a ≤ orderOf v b := by
  induction v with
  | nil => simp [orderOf]
  | cons p ps ih =>
    unfold orderOf
    by_cases h1 : a.mIndex ≤ p.mIndex
    · simp [h1]
    · have h2 : ¬ b.mIndex ≤ p.mIndex := by omega
      simp [h1, h2, ih]

theorem SortedByIndex.tail {p : CurvePoint} {ps : List CurvePoint}
    (h : SortedByIndex (p :: ps)) : SortedByIndex ps := by
  unfold SortedByIndex at h ⊢
  exact (List.pairwise_cons.mp h).2

theorem SortedByIndex.head_lt {p : CurvePoint} {ps : List CurvePoint}
    (h : SortedByIndex (p :: ps)) : ∀ x ∈ ps, p.mIndex < x.mIndex := by
  unfold SortedByIndex at h
  exact (List.pairwise_cons.mp h).1

/-- In a sorted curve the rank of the index of a control point is the rank of that point. -/
theorem orderOf_of_getElem? (v : List CurvePoint) (hs : SortedByIndex v) :
    ∀ (q : Nat) (x : CurvePoint) (a : Int), v[q]? = some x →
      orderOf v ⟨x.mIndex, a⟩ = q := by
  induction v with
  | nil => intro q x a hx; simp at hx
  | cons p ps ih =>
    intro q x a hx
    unfold orderOf
    cases q with
    | zero =>
      simp at hx
      subst hx
      simp
    | succ q =>
      simp at hx
      have hmem : x ∈ ps := List.getElem?_mem hx
      have hlt := hs.head_lt x hmem
      have h1 : ¬ x.mIndex ≤ p.mIndex := by omega
      simp [h1, ih hs.tail q x a hx]

/-- In a sorted curve, indices grow with the rank. -/
theorem SortedByIndex.index_lt (v : List CurvePoint) (hs : SortedByIndex v) :
    ∀ (q r : Nat) (x y : CurvePoint), q < r → v[q]? = some x → v[r]? = some y →
      x.mIndex < y.mIndex := by
  induction v with
  | nil => intro q r x y _ hx; simp at hx
  | cons p ps ih =>
    intro q r x y hqr hx hy
    cases r with
    | zero => omega
    | succ r =>
      simp at hy
      cases q with
      | zero =>
        simp at hx
        subst hx
        exact hs.head_lt y (List.getElem?_mem hy)
      | succ q =>
        simp at hx
        exact ih hs.tail q r x y (by omega) hx hy

/-! ## The two halves of the evaluation -/

theorem curveIndex_degenerate (v : List CurvePoint) (k : Int) : curveIndex v k k k = .ok k := by
  simp [curveIndex]

theorem curveIndex_scaled (v : List CurvePoint) (c lo hi : Int) (hne : v ≠ []) (h : lo ≠ hi) :
    curveIndex v c lo hi
      = .ok (((1 + (v.getLast hne).mIndex - (v.head hne).mIndex) * (c - lo)).tdiv (hi - lo)) := by
  unfold curveIndex
  have hd : ¬ (hi - lo = 0) := by omega
  simp only [h, if_false, elemAt_last v hne, elemAt_head v hne, intDiv, hd]

theorem lookupDb_past_last (v : List CurvePoint) (c : Int) (hne : v ≠ [])
    (h : v.length ≤ orderOf v ⟨c, 0⟩) :
    lookupDb v c = .ok (.attenuation (v.getLast hne).mAttenuationInMb) := by
  unfold lookupDb
  simp only [ge_iff_le, h, if_true, elemAt_last v hne]

theorem lookupDb_first (v : List CurvePoint) (c : Int) (hne : v ≠ [])
    (h : orderOf v ⟨c, 0⟩ = 0) :
    lookupDb v c = .ok (if toUint32 c ≠ toUint32 (v.head hne).mIndex then .volumeMinDb
      else .attenuation (v.head hne).mAttenuationInMb) := by
  unfold lookupDb
  have hlen : ¬ v.length ≤ 0 := by
    have := List.length_pos.mpr hne
    omega
  simp only [ge_iff_le, h, hlen, if_true, if_false, elemAt_head v hne]
  split <;> rfl

theorem lookupDb_interp (v : List CurvePoint) (c : Int) (h0 : 0 < orderOf v ⟨c, 0⟩)
    (h1 : orderOf v ⟨c, 0⟩ < v.length) :
    ∃ lo hi : CurvePoint, v[orderOf v ⟨c, 0⟩ - 1]? = some lo ∧ v[orderOf v ⟨c, 0⟩]? = some hi ∧
      lo.mIndex < c ∧ c ≤ hi.mIndex ∧
      lookupDb v c
        = .ok (.logInterp lo.mAttenuationInMb hi.mAttenuationInMb c lo.mIndex hi.mIndex) := by
  have hlo : v[orderOf v ⟨c, 0⟩ - 1]? = some (v[orderOf v ⟨c, 0⟩ - 1]) :=
    List.getElem?_eq_getElem (by omega)
  have hhi : v[orderOf v ⟨c, 0⟩]? = some (v[orderOf v ⟨c, 0⟩]) :=
    List.getElem?_eq_getElem h1
  refine ⟨_, _, hlo, hhi, ?_, ?_, ?_⟩
  · exact orderOf_lt_index v ⟨c, 0⟩ _ _ (by omega) hlo
  · exact orderOf_ge_index v ⟨c, 0⟩ _ hhi
  · unfold lookupDb
    have hn : ¬ v.length ≤ orderOf v ⟨c, 0⟩ := by omega
    have hz : ¬ orderOf v ⟨c, 0⟩ = 0 := by omega
    simp only [ge_iff_le, hn, hz, if_false, elemAt_eq_ok hlo, elemAt_eq_ok hhi]

theorem volIndexToDb_eq_lookupDb (v : List CurvePoint) (i lo hi c volIdx : Int) (hne : v ≠ [])
    (hlo : 0 ≤ lo) (hhi : 0 ≤ hi) (hr : remapIndex i lo hi = some c)
    (hc : curveIndex v c lo hi = .ok volIdx) :
    volIndexToDb v i lo hi = lookupDb v volIdx := by
  unfold volIndexToDb
  have hb : ¬ (lo < 0 ∨ hi < 0) := by omega
  simp only [isEmpty_eq_false_of_ne_nil hne, hb, if_false, hr, hc]
  rfl

/-! ## The logarithmic warp in exact arithmetic -/

theorem logb_ten_ten : Real.logb 10 10 = 1 :=
  Real.logb_self_eq_one (by norm_num)

theorem logFactor_eq (t : ℝ) : logFactor t = Real.logb 10 (1 + 9 * t) := by
  unfold logFactor
  rw [logb_ten_ten, div_one]

theorem logFactor_one : logFactor 1 = 1 := by
  rw [logFactor_eq]
  norm_num

theorem logFactor_nonneg {t : ℝ} (h : 0 ≤ t) : 0 ≤ logFactor t := by
  rw [logFactor_eq]
  exact Real.logb_nonneg (by norm_num) (by linarith)

theorem logFactor_mono {s t : ℝ} (h0 : 0 ≤ s) (h : s ≤ t) : logFactor s ≤ logFactor t := by
  rw [logFactor_eq, logFactor_eq]
  exact Real.logb_le_logb_of_le (by norm_num) (by linarith) (by linarith)

theorem logFactor_le_one {t : ℝ} (h0 : 0 ≤ t) (h : t ≤ 1) : logFactor t ≤ 1 := by
  rw [← logFactor_one]
  exact logFactor_mono h0 h

/-- The interpolation parameter of a bracket `x < c <= y` lies in `(0, 1]`. -/
theorem normalized_mem (c x y : Int) (h1 : x < c) (h2 : c ≤ y) :
    0 < ((c : ℝ) - (x : ℝ)) / ((y : ℝ) - (x : ℝ)) ∧
      ((c : ℝ) - (x : ℝ)) / ((y : ℝ) - (x : ℝ)) ≤ 1 := by
  have hx : (x : ℝ) < (c : ℝ) := by exact_mod_cast h1
  have hy : (c : ℝ) ≤ (y : ℝ) := by exact_mod_cast h2
  have hd : (0 : ℝ) < (y : ℝ) - (x : ℝ) := by linarith
  constructor
  · exact div_pos (by linarith) hd
  · rw [div_le_one hd]
    linarith

theorem toReal_logInterp (V : ℝ) (a b c x y : Int) :
    (Decibels.logInterp a b c x y).toReal V
      = some ((a : ℝ) / 100
          + logFactor (((c : ℝ) - (x : ℝ)) / ((y : ℝ) - (x : ℝ)))
            * ((b : ℝ) / 100 - (a : ℝ) / 100)) := rfl

/-- An interpolated value lies between the attenuations of its two bracketing points. -/
theorem toReal_logInterp_between (V : ℝ) (a b c x y m M : Int) (h1 : x < c) (h2 : c ≤ y)
    (hma : m ≤ a) (hmb : m ≤ b) (haM : a ≤ M) (hbM : b ≤ M) :
    ∃ d : ℝ, (Decibels.logInterp a b c x y).toReal V = some d ∧
      (m : ℝ) / 100 ≤ d ∧ d ≤ (M : ℝ) / 100 := by
  refine ⟨_, toReal_logInterp V a b c x y, ?_, ?_⟩
  all_goals
    have hn := normalized_mem c x y h1 h2
    have hf0 := logFactor_nonneg (le_of_lt hn.1)
    have hf1 := logFactor_le_one (le_of_lt hn.1) hn.2
    have hma2 : (m : ℝ) ≤ (a : ℝ) := by exact_mod_cast hma
    have hmb2 : (m : ℝ) ≤ (b : ℝ) := by exact_mod_cast hmb
    have haM2 : (a : ℝ) ≤ (M : ℝ) := by exact_mod_cast haM
    have hbM2 : (b : ℝ) ≤ (M : ℝ) := by exact_mod_cast hbM
    generalize logFactor (((c : ℝ) - (x : ℝ)) / ((y : ℝ) - (x : ℝ))) = f at hf0 hf1 ⊢
  · nlinarith
  · nlinarith

/-- At the upper end of its bracket the interpolation gives the attenuation of the upper
point. -/
theorem toReal_logInterp_upper (V : ℝ) (a b x y : Int) (h : x < y) :
    (Decibels.logInterp a b y x y).toReal V = some ((b : ℝ) / 100) := by
  rw [toReal_logInterp]
  have hx : (x : ℝ) < (y : ℝ) := by exact_mod_cast h
  have hd : (y : ℝ) - (x : ℝ) ≠ 0 := by
    intro h0
    linarith
  rw [div_self hd, logFactor_one]
  congr 1
  ring

/-! ## Extreme attenuations -/

theorem minAttenuation_le (v : List CurvePoint) :
    ∀ p ∈ v, minAttenuation v ≤ p.mAttenuationInMb := by
  induction v with
  | nil => intro p hp; simp at hp
  | cons a as ih =>
    intro p hp
    cases as with
    | nil =>
      simp at hp
      subst hp
      simp [minAttenuation]
    | cons b bs =>
      unfold minAttenuation
      rcases List.mem_cons.mp hp with h | h
      · subst h
        exact min_le_left _ _
      · exact le_trans (min_le_right _ _) (ih p h)

theorem le_maxAttenuation (v : List CurvePoint) :
    ∀ p ∈ v, p.mAttenuationInMb ≤ maxAttenuation v := by
  induction v with
  | nil => intro p hp; simp at hp
  | cons a as ih =>
    intro p hp
    cases as with
    | nil =>
      simp at hp
      subst hp
      simp [maxAttenuation]
    | cons b bs =>
      unfold maxAttenuation
      rcases List.mem_cons.mp hp with h | h
      · subst h
        exact le_max_left _ _
      · exact le_trans (ih p h) (le_max_right _ _)

theorem toReal_attenuation_between (V : ℝ) (v : List CurvePoint) (p : CurvePoint) (hp : p ∈ v) :
    ∃ d : ℝ, (Decibels.attenuation p.mAttenuationInMb).toReal V = some d ∧
      (minAttenuation v : ℝ) / 100 ≤ d ∧ d ≤ (maxAttenuation v : ℝ) / 100 := by
  refine ⟨_, rfl, ?_, ?_⟩
  · have h : (minAttenuation v : ℝ) ≤ (p.mAttenuationInMb : ℝ) := by
      exact_mod_cast minAttenuation_le v p hp
    linarith
  · have h : (p.mAttenuationInMb : ℝ) ≤ (maxAttenuation v : ℝ) := by
      exact_mod_cast le_maxAttenuation v p hp
    linarith

/-- Whatever the curve index, the lookup returns the mute value or a value between the
extreme attenuations of the curve. -/
theorem lookupDb_bounded (V : ℝ) (v : List CurvePoint) (c : Int) (hne : v ≠ []) :
    ∃ r : Decibels, lookupDb v c = .ok r ∧ r ≠ .nan ∧
      (r = .volumeMinDb ∨ ∃ d : ℝ, r.toReal V = some d ∧
        (minAttenuation v : ℝ) / 100 ≤ d ∧ d ≤ (maxAttenuation v : ℝ) / 100) := by
  by_cases hn : v.length ≤ orderOf v ⟨c, 0⟩
  · exact ⟨_, lookupDb_past_last v c hne hn, by simp,
      Or.inr (toReal_attenuation_between V v _ (List.getLast_mem hne))⟩
  · by_cases hz : orderOf v ⟨c, 0⟩ = 0
    · rw [lookupDb_first v c hne hz]
      by_cases hu : toUint32 c ≠ toUint32 (v.head hne).mIndex
      · exact ⟨_, by rw [if_pos hu], by simp, Or.inl rfl⟩
      · exact ⟨_, by rw [if_neg hu], by simp,
          Or.inr (toReal_attenuation_between V v _ (List.head_mem hne))⟩
    · obtain ⟨lo, hi, hlo, hhi, h1, h2, hl⟩ := lookupDb_interp v c (by omega) (by omega)
      have hlom := List.getElem?_mem hlo
      have hhim := List.getElem?_mem hhi
      exact ⟨_, hl, by simp, Or.inr (toReal_logInterp_between V _ _ c _ _ _ _ h1 h2
        (minAttenuation_le v lo hlom) (minAttenuation_le v hi hhim)
        (le_maxAttenuation v lo hlom) (le_maxAttenuation v hi hhim))⟩

/-! ## Sorted curves -/

theorem SortedByIndex.le_last (v : List CurvePoint) (hs : SortedByIndex v) (hne : v ≠ []) :
    ∀ p ∈ v, p.mIndex ≤ (v.getLast hne).mIndex := by
  intro p hp
  obtain ⟨q, hq⟩ := List.mem_iff_getElem?.mp hp
  have hlast := getElem?_last v hne
  have hqlt : q < v.length := (List.getElem?_eq_some.mp hq).1
  by_cases h : q = v.length - 1
  · rw [h, hlast] at hq
    cases hq
    exact le_refl _
  · exact le_of_lt (hs.index_lt v q (v.length - 1) _ _ (by omega) hq hlast)

theorem SortedByIndex.head_le_last (v : List CurvePoint) (hs : SortedByIndex v) (hne : v ≠ []) :
    (v.head hne).mIndex ≤ (v.getLast hne).mIndex :=
  hs.le_last v hne _ (List.head_mem hne)

/-- An index above every control point has the size of the curve as its rank. -/
theorem orderOf_eq_length (v : List CurvePoint) (item : CurvePoint)
    (h : ∀ p ∈ v, p.mIndex < item.mIndex) : orderOf v item = v.length := by
  induction v with
  | nil => rfl
  | cons p ps ih =>
    unfold orderOf
    have h1 : ¬ item.mIndex ≤ p.mIndex := by
      have := h p (List.mem_cons_self _ _)
      omega
    simp [h1, ih (fun x hx => h x (List.mem_cons_of_mem _ hx))]

/-- At the index of a control point of a sorted curve, the lookup gives the attenuation of
that point (divided by 100), by the first-point branch or by an interpolation with
parameter 1. -/
theorem lookupDb_at_point (V : ℝ) (v : List CurvePoint) (hs : SortedByIndex v) (hne : v ≠ [])
    (q : Nat) (pt : CurvePoint) (hq : v[q]? = some pt) :
    ∃ r : Decibels, lookupDb v pt.mIndex = .ok r ∧
      r.toReal V = some ((pt.mAttenuationInMb : ℝ) / 100) := by
  have hord : orderOf v ⟨pt.mIndex, 0⟩ = q := orderOf_of_getElem? v hs q pt 0 hq
  have hqlt : q < v.length := (List.getElem?_eq_some.mp hq).1
  by_cases hz : q = 0
  · have hhead : v.head hne = pt := by
      have h0 := getElem?_zero_head v hne
      rw [hz] at hq
      rw [hq] at h0
      cases h0
      rfl
    refine ⟨_, lookupDb_first v pt.mIndex hne (by rw [hord, hz]), ?_⟩
    rw [hhead]
    simp [Decibels.toReal]
  · obtain ⟨lo, hi, hlo, hhi, h1, _, hl⟩ :=
      lookupDb_interp v pt.mIndex (by rw [hord]; omega) (by rw [hord]; exact hqlt)
    rw [hord] at hhi
    rw [hq] at hhi
    cases hhi
    exact ⟨_, hl, toReal_logInterp_upper V _ _ _ _ h1⟩

theorem floor_div_pos (n d : Int) (hd : 0 < d) : ⌊(n : ℚ) / (d : ℚ)⌋ = n / d := by
  have h := Rat.floor_intCast_div_natCast n d.toNat
  have hcast : ((d.toNat : ℕ) : ℤ) = d := Int.toNat_of_nonneg (le_of_lt hd)
  have hq : ((d.toNat : ℕ) : ℚ) = (d : ℚ) := by
    rw [← Int.cast_natCast, hcast]
  rw [hq, hcast] at h
  exact h

theorem remapIndex_in_range (i lo hi : Int) (h1 : lo ≤ i) (h2 : i ≤ hi) :
    remapIndex i lo hi = some i := by
  unfold remapIndex
  have a : ¬ i < lo := by omega
  have b : ¬ i > hi := by omega
  simp only [a, b, if_false]

/-! ## Monotonicity of the lookup -/

theorem AttenuationIncreasing.att_le (v : List CurvePoint) (h : AttenuationIncreasing v) :
    ∀ (q r : Nat) (x y : CurvePoint), q ≤ r → v[q]? = some x → v[r]? = some y →
      x.mAttenuationInMb ≤ y.mAttenuationInMb := by
  induction v with
  | nil => intro q r x y _ hx; simp at hx
  | cons p ps ih =>
    intro q r x y hqr hx hy
    have hp := List.pairwise_cons.mp h
    cases q with
    | zero =>
      simp at hx
      subst hx
      cases r with
      | zero =>
        simp at hy
        subst hy
        exact le_refl _
      | succ r =>
        simp at hy
        exact le_of_lt (hp.1 y (List.getElem?_mem hy))
    | succ q =>
      cases r with
      | zero => omega
      | succ r =>
        simp at hx hy
        exact ih hp.2 q r x y (by omega) hx hy

/-- The value of the lookup lies between the attenuations of the points of rank
`orderOf - 1` and `orderOf`, where these exist. -/
theorem lookupDb_value (V : ℝ) (v : List CurvePoint) (c : Int) (hne : v ≠ [])
    (hatt : AttenuationIncreasing v) (hV : V ≤ ((v.head hne).mAttenuationInMb : ℝ) / 100) :
    ∃ (r : Decibels) (x : ℝ), lookupDb v c = .ok r ∧ r.toReal V = some x ∧
      (∀ hi : CurvePoint, v[orderOf v ⟨c, 0⟩]? = some hi →
        x ≤ (hi.mAttenuationInMb : ℝ) / 100) ∧
      (∀ lo : CurvePoint, 0 < orderOf v ⟨c, 0⟩ → v[orderOf v ⟨c, 0⟩ - 1]? = some lo →
        (lo.mAttenuationInMb : ℝ) / 100 ≤ x) := by
  by_cases hn : v.length ≤ orderOf v ⟨c, 0⟩
  · have hp : orderOf v ⟨c, 0⟩ = v.length := le_antisymm (orderOf_le_length v _) hn
    refine ⟨_, _, lookupDb_past_last v c hne hn, rfl, ?_, ?_⟩
    · intro hi hhi
      rw [hp] at hhi
      simp at hhi
    · intro lo _ hlo
      rw [hp, getElem?_last v hne] at hlo
      cases hlo
      exact le_refl _
  · by_cases hz : orderOf v ⟨c, 0⟩ = 0
    · rw [lookupDb_first v c hne hz, hz]
      by_cases hu : toUint32 c ≠ toUint32 (v.head hne).mIndex
      · rw [if_pos hu]
        refine ⟨_, _, rfl, rfl, ?_, ?_⟩
        · intro hi hhi
          rw [getElem?_zero_head v hne] at hhi
          cases hhi
          exact hV
        · intro lo h0
          omega
      · rw [if_neg hu]
        refine ⟨_, _, rfl, rfl, ?_, ?_⟩
        · intro hi hhi
          rw [getElem?_zero_head v hne] at hhi
          cases hhi
          exact le_refl _
        · intro lo h0
          omega
    · obtain ⟨lo, hi, hlo, hhi, h1, h2, hl⟩ := lookupDb_interp v c (by omega) (by omega)
      have hle : lo.mAttenuationInMb ≤ hi.mAttenuationInMb :=
        hatt.att_le v _ _ lo hi (by omega) hlo hhi
      obtain ⟨d, hd, hd1, hd2⟩ := toReal_logInterp_between V lo.mAttenuationInMb
        hi.mAttenuationInMb c lo.mIndex hi.mIndex lo.mAttenuationInMb hi.mAttenuationInMb
        h1 h2 (le_refl _) hle hle (le_refl _)
      refine ⟨_, d, hl, hd, ?_, ?_⟩
      · intro hi2 hhi2
        rw [hhi] at hhi2
        cases hhi2
        exact hd2
      · intro lo2 _ hlo2
        rw [hlo] at hlo2
        cases hlo2
        exact hd1

theorem Decibels.le_refl_of_toReal (V : ℝ) (a : Decibels) (x : ℝ) (h : a.toReal V = some x) :
    Decibels.le V a a :=
  ⟨x, x, h, h, le_refl _⟩

/-- The lookup is non-decreasing in the curve index, over non-negative curve indices. -/
theorem lookupDb_mono (V : ℝ) (v : List CurvePoint) (c c2 : Int) (hne : v ≠ [])
    (hatt : AttenuationIncreasing v) (hword : (v.head hne).mIndex < 4294967296)
    (hV : V ≤ ((v.head hne).mAttenuationInMb : ℝ) / 100) (h0 : 0 ≤ c) (hcc : c ≤ c2) :
    ∃ a b : Decibels, lookupDb v c = .ok a ∧ lookupDb v c2 = .ok b ∧ Decibels.le V a b := by
  have hpp : orderOf v ⟨c, 0⟩ ≤ orderOf v ⟨c2, 0⟩ := orderOf_mono v _ _ hcc
  obtain ⟨r, x, hr, hx, hU, _⟩ := lookupDb_value V v c hne hatt hV
  obtain ⟨r2, x2, hr2, hx2, hU2, hL2⟩ := lookupDb_value V v c2 hne hatt hV
  by_cases hlt : orderOf v ⟨c, 0⟩ < orderOf v ⟨c2, 0⟩
  · have hlen := orderOf_le_length v ⟨c2, 0⟩
    have hp : v[orderOf v ⟨c, 0⟩]? = some (v[orderOf v ⟨c, 0⟩]) :=
      List.getElem?_eq_getElem (by omega)
    have hq : v[orderOf v ⟨c2, 0⟩ - 1]? = some (v[orderOf v ⟨c2, 0⟩ - 1]) :=
      List.getElem?_eq_getElem (by omega)
    have h1 := hU _ hp
    have h2 := hL2 _ (by omega) hq
    have h3 : ((v[orderOf v ⟨c, 0⟩]).mAttenuationInMb : ℝ)
        ≤ ((v[orderOf v ⟨c2, 0⟩ - 1]).mAttenuationInMb : ℝ) := by
      exact_mod_cast hatt.att_le v _ _ _ _ (by omega) hp hq
    exact ⟨r, r2, hr, hr2, x, x2, hx, hx2, by linarith⟩
  · have heq : orderOf v ⟨c2, 0⟩ = orderOf v ⟨c, 0⟩ := by omega
    by_cases hn : v.length ≤ orderOf v ⟨c, 0⟩
    · refine ⟨_, _, lookupDb_past_last v c hne hn,
        lookupDb_past_last v c2 hne (by rw [heq]; exact hn), ?_⟩
      exact Decibels.le_refl_of_toReal V _ _ rfl
    · by_cases hz : orderOf v ⟨c, 0⟩ = 0
      · by_cases hu : toUint32 c ≠ toUint32 (v.head hne).mIndex
        · have ha : lookupDb v c = .ok .volumeMinDb := by
            rw [lookupDb_first v c hne hz, if_pos hu]
          refine ⟨_, r2, ha, hr2, V, x2, rfl, hx2, ?_⟩
          rw [lookupDb_first v c2 hne (by rw [heq]; exact hz)] at hr2
          by_cases hu2 : toUint32 c2 ≠ toUint32 (v.head hne).mIndex
          · rw [if_pos hu2] at hr2
            cases hr2
            cases hx2
            exact le_refl _
          · rw [if_neg hu2] at hr2
            cases hr2
            cases hx2
            exact hV
        · have hc2 : c2 ≤ (v.head hne).mIndex := by
            have := orderOf_ge_index v ⟨c2, 0⟩ (v.head hne)
              (by rw [heq, hz]; exact getElem?_zero_head v hne)
            exact this
          have e1 : toUint32 c = c := Int.emod_eq_of_lt h0 (by omega)
          have e2 : toUint32 (v.head hne).mIndex = (v.head hne).mIndex :=
            Int.emod_eq_of_lt (by omega) hword
          rw [e1, e2] at hu
          have hce : c = c2 := by omega
          subst hce
          exact ⟨r, r, hr, hr, Decibels.le_refl_of_toReal V r x hx⟩
      · obtain ⟨lo, hi, hlo, hhi, h1, h2, hl⟩ := lookupDb_interp v c (by omega) (by omega)
        obtain ⟨lo2, hi2, hlo2, hhi2, h12, h22, hl2⟩ :=
          lookupDb_interp v c2 (by omega) (by omega)
        rw [heq, hlo] at hlo2
        rw [heq, hhi] at hhi2
        cases hlo2
        cases hhi2
        refine ⟨_, _, hl, hl2, _, _, toReal_logInterp V _ _ _ _ _, toReal_logInterp V _ _ _ _ _,
          ?_⟩
        have hle : (lo.mAttenuationInMb : ℝ) ≤ (hi.mAttenuationInMb : ℝ) := by
          exact_mod_cast hatt.att_le v _ _ lo hi (by omega) hlo hhi
        have hd : (0 : ℝ) < (hi.mIndex : ℝ) - (lo.mIndex : ℝ) := by
          have : (lo.mIndex : ℝ) < (hi.mIndex : ℝ) := by exact_mod_cast (by omega : lo.mIndex < hi.mIndex)
          linarith
        have hcr : (c : ℝ) ≤ (c2 : ℝ) := by exact_mod_cast hcc
        have ht := (normalized_mem c lo.mIndex hi.mIndex h1 h2).1
        have hf := logFactor_mono (le_of_lt ht)
          (div_le_div_of_nonneg_right (by linarith : (c : ℝ) - (lo.mIndex : ℝ)
            ≤ (c2 : ℝ) - (lo.mIndex : ℝ)) (le_of_lt hd))
        have hw : (0 : ℝ) ≤ (hi.mAttenuationInMb : ℝ) / 100 - (lo.mAttenuationInMb : ℝ) / 100 := by
          linarith
        have := mul_le_mul_of_nonneg_right hf hw
        linarith

/-- Whatever the value of `VOLUME_MIN_DB`, some curve with strictly increasing indices and
attenuations starts below it: with bounds `(0, 2)` index 0 is muted and index 1 evaluates to
the first point, which lies below the mute value. -/
theorem volIndexToDb_first_point_below_mute (V : ℝ) :
    ∃ curve : List CurvePoint, curve ≠ [] ∧ SortedByIndex curve ∧ AttenuationIncreasing curve ∧
      volIndexToDb curve 0 0 2 = .ok .volumeMinDb ∧
      ∃ mb : Int, volIndexToDb curve 1 0 2 = .ok (.attenuation mb) ∧ (mb : ℝ) / 100 < V := by
  refine ⟨[⟨1, ⌊100 * V⌋ - 1⟩, ⟨2, ⌊100 * V⌋⟩], by simp, ?_, ?_, ?_, ⌊100 * V⌋ - 1, ?_, ?_⟩
  · simp [SortedByIndex]
  · simp [AttenuationIncreasing]
  · rfl
  · rfl
  · have h := Int.floor_le (100 * V)
    push_cast
    linarith

/-! ## Brackets, case analysis and totality -/

/-- The rank of `c` is `k` as soon as the points of rank below `k` lie below `c` and the
point of rank `k` does not. -/
theorem orderOf_eq_of_bracket (v : List CurvePoint) (c a : Int) (k : Nat) (y : CurvePoint)
    (hlt : ∀ (r : Nat) (x : CurvePoint), r < k → v[r]? = some x → x.mIndex < c)
    (hy : v[k]? = some y) (hc : c ≤ y.mIndex) : orderOf v ⟨c, a⟩ = k := by
  have hk : k < v.length := (List.getElem?_eq_some.mp hy).1
  rcases Nat.lt_trichotomy (orderOf v ⟨c, a⟩) k with h | h | h
  · have hp : v[orderOf v ⟨c, a⟩]? = some (v[orderOf v ⟨c, a⟩]) :=
      List.getElem?_eq_getElem (by omega)
    have h1 : c ≤ (v[orderOf v ⟨c, a⟩]).mIndex := orderOf_ge_index v ⟨c, a⟩ _ hp
    have h2 : (v[orderOf v ⟨c, a⟩]).mIndex < c := hlt _ _ h hp
    omega
  · exact h
  · have h1 : y.mIndex < c := orderOf_lt_index v ⟨c, a⟩ k y h hy
    omega

/-- The rank does not depend on the attenuation of the searched item. -/
theorem orderOf_attenuation (v : List CurvePoint) (c a b : Int) :
    orderOf v ⟨c, a⟩ = orderOf v ⟨c, b⟩ := by
  induction v with
  | nil => rfl
  | cons p ps ih =>
    unfold orderOf
    simp only [ih]

/-- A lookup that ends in the interpolation branch used the bracket around its curve index. -/
theorem lookupDb_eq_logInterp (v : List CurvePoint) (volIdx a b c x y : Int) (hne : v ≠ [])
    (h : lookupDb v volIdx = .ok (.logInterp a b c x y)) :
    c = volIdx ∧ 0 < orderOf v ⟨c, 0⟩ ∧ orderOf v ⟨c, 0⟩ < v.length ∧
    ∃ lo hi : CurvePoint, v[orderOf v ⟨c, 0⟩ - 1]? = some lo ∧ v[orderOf v ⟨c, 0⟩]? = some hi ∧
      a = lo.mAttenuationInMb ∧ b = hi.mAttenuationInMb ∧ x = lo.mIndex ∧ y = hi.mIndex ∧
      x < c ∧ c ≤ y := by
  by_cases hn : v.length ≤ orderOf v ⟨volIdx, 0⟩
  · rw [lookupDb_past_last v volIdx hne hn] at h
    cases h
  · by_cases hz : orderOf v ⟨volIdx, 0⟩ = 0
    · rw [lookupDb_first v volIdx hne hz] at h
      by_cases hu : toUint32 volIdx ≠ toUint32 (v.head hne).mIndex
      · rw [if_pos hu] at h
        cases h
      · rw [if_neg hu] at h
        cases h
    · obtain ⟨lo, hi, hlo, hhi, h1, h2, hl⟩ := lookupDb_interp v volIdx (by omega) (by omega)
      rw [hl] at h
      cases h
      exact ⟨rfl, by omega, by omega, lo, hi, hlo, hhi, rfl, rfl, rfl, rfl, h1, h2⟩

/-- On a non-empty curve the lookup returns for every curve index. -/
theorem lookupDb_total (v : List CurvePoint) (c : Int) (hne : v ≠ []) :
    ∃ r : Decibels, lookupDb v c = .ok r ∧ r ≠ .nan := by
  obtain ⟨r, hr, hnan, _⟩ := lookupDb_bounded 0 v c hne
  exact ⟨r, hr, hnan⟩

theorem remapIndex_degenerate (i k c : Int) (h : remapIndex i k k = some c) : c = k := by
  unfold remapIndex at h
  split at h
  · split at h
    · cases h
    · cases h
      rfl
  · split at h
    · cases h
      rfl
    · cases h
      omega

theorem remapIndex_eq_none (i lo hi : Int) (h : remapIndex i lo hi = none) : i = 0 ∧ 0 < lo := by
  unfold remapIndex at h
  split at h
  · split at h
    · omega
    · cases h
  · split at h <;> cases h

theorem remapIndex_some_of_not_mute (i lo hi : Int) (hmute : ¬ (i = 0 ∧ 0 < lo)) :
    ∃ c : Int, remapIndex i lo hi = some c := by
  cases hr : remapIndex i lo hi with
  | none => exact absurd (remapIndex_eq_none i lo hi hr) hmute
  | some c => exact ⟨c, rfl⟩

/-- Where the remapped index can lie. -/
theorem remapIndex_some_range (i lo hi c : Int) (h : remapIndex i lo hi = some c) :
    (lo ≤ hi → lo ≤ c ∧ c ≤ hi) ∧ (hi < lo → c = lo ∨ c = hi) := by
  unfold remapIndex at h
  split at h
  · split at h
    · cases h
    · cases h
      omega
  · split at h
    · cases h
      omega
    · cases h
      omega

/-- The three ways an evaluation on a non-empty curve can go. -/
theorem volIndexToDb_cases (v : List CurvePoint) (i lo hi : Int) (hne : v ≠ []) :
    (volIndexToDb v i lo hi = .ok .nan ∧ (lo < 0 ∨ hi < 0)) ∨
    (volIndexToDb v i lo hi = .ok .volumeMinDb ∧ 0 ≤ lo ∧ 0 ≤ hi ∧ i = 0 ∧ 0 < lo) ∨
    (∃ c volIdx : Int, 0 ≤ lo ∧ 0 ≤ hi ∧ remapIndex i lo hi = some c ∧
      curveIndex v c lo hi = .ok volIdx ∧ volIndexToDb v i lo hi = lookupDb v volIdx) := by
  by_cases hneg : lo < 0 ∨ hi < 0
  · left
    refine ⟨?_, hneg⟩
    unfold volIndexToDb
    rw [isEmpty_eq_false_of_ne_nil hne]
    simp [hneg]
  · right
    have hlo : 0 ≤ lo := by omega
    have hhi : 0 ≤ hi := by omega
    cases hr : remapIndex i lo hi with
    | none =>
      left
      have hm := remapIndex_eq_none i lo hi hr
      refine ⟨?_, hlo, hhi, hm.1, hm.2⟩
      unfold volIndexToDb
      rw [isEmpty_eq_false_of_ne_nil hne, hr]
      simp [hneg]
    | some c =>
      right
      by_cases heq : lo = hi
      · subst heq
        have hc := remapIndex_degenerate i lo c hr
        subst hc
        exact ⟨c, c, hlo, hhi, rfl, curveIndex_degenerate v c,
          volIndexToDb_eq_lookupDb v i c c c c hne hlo hhi hr (curveIndex_degenerate v c)⟩
      · exact ⟨c, _, hlo, hhi, rfl, curveIndex_scaled v c lo hi hne heq,
          volIndexToDb_eq_lookupDb v i lo hi c _ hne hlo hhi hr
            (curveIndex_scaled v c lo hi hne heq)⟩

/-- An evaluation that ends in the interpolation branch is a lookup that does. -/
theorem volIndexToDb_eq_logInterp (v : List CurvePoint) (i lo hi a b c x y : Int) (hne : v ≠ [])
    (h : volIndexToDb v i lo hi = .ok (.logInterp a b c x y)) :
    lookupDb v c = .ok (.logInterp a b c x y) := by
  rcases volIndexToDb_cases v i lo hi hne with ⟨h1, _⟩ | ⟨h1, _⟩ | ⟨ci, volIdx, _, _, _, _, h1⟩
  · rw [h1] at h
    cases h
  · rw [h1] at h
    cases h
  · rw [h1] at h
    have hc := (lookupDb_eq_logInterp v volIdx a b c x y hne h).1
    subst hc
    exact h

/-! ## The spec example at index 75 -/

theorem logb_ten_lower : (0.74 : ℝ) < Real.logb 10 5.5 := by
  rw [Real.lt_logb_iff_rpow_lt (by norm_num) (by norm_num)]
  have h10 : (0 : ℝ) ≤ 10 := by norm_num
  by_contra hge
  push_neg at hge
  have h1 : (5.5 : ℝ) ^ 100 ≤ ((10 : ℝ) ^ (0.74 : ℝ)) ^ 100 :=
    pow_le_pow_left₀ (by norm_num) hge 100
  have h2 : ((10 : ℝ) ^ (0.74 : ℝ)) ^ 100 = (10 : ℝ) ^ 74 := by
    rw [← Real.rpow_natCast, ← Real.rpow_mul h10]
    norm_num
  rw [h2] at h1
  norm_num at h1

theorem logb_ten_upper : Real.logb 10 5.5 < (0.741 : ℝ) := by
  rw [Real.logb_lt_iff_lt_rpow (by norm_num) (by norm_num)]
  have h10 : (0 : ℝ) ≤ 10 := by norm_num
  have hpos : (0 : ℝ) ≤ (10 : ℝ) ^ (0.741 : ℝ) := Real.rpow_nonneg h10 _
  by_contra hge
  push_neg at hge
  have h1 : ((10 : ℝ) ^ (0.741 : ℝ)) ^ 1000 ≤ (5.5 : ℝ) ^ 1000 :=
    pow_le_pow_left₀ hpos hge 1000
  have h2 : ((10 : ℝ) ^ (0.741 : ℝ)) ^ 1000 = (10 : ℝ) ^ 741 := by
    rw [← Real.rpow_natCast, ← Real.rpow_mul h10]
    norm_num
  rw [h2] at h1
  norm_num at h1

/-- The interpolation of the spec example at curve index 75: bracket `(50, 100)`, parameter
0.5, value `-20 + 20 * log10 5.5`, which lies between -5.2 and -5.18. -/
theorem exampleCurve_value_at_75 :
    ∃ d : ℝ, (Decibels.logInterp (-2000) 0 75 50 100).toReal (-758) = some d ∧
      d = -20 + 20 * Real.logb 10 5.5 ∧ -5.2 < d ∧ d < -5.18 := by
  refine ⟨_, toReal_logInterp _ _ _ _ _ _, ?_, ?_, ?_⟩
  · rw [logFactor_eq]
    norm_num
    ring
  · rw [logFactor_eq]
    have h := logb_ten_lower
    norm_num
    norm_num at h
    linarith
  · rw [logFactor_eq]
    have h := logb_ten_upper
    norm_num
    norm_num at h
    linarith

/-! ## Range of the curve index -/

/-- With non-negative, distinct bounds the curve index of a sorted curve lies in
`[0, nbSteps]`. -/
theorem curveIndex_range (v : List CurvePoint) (i lo hi c : Int) (hne : v ≠ [])
    (hs : SortedByIndex v) (hneq : lo ≠ hi) (hr : remapIndex i lo hi = some c) :
    ∃ volIdx : Int, curveIndex v c lo hi = .ok volIdx ∧ 0 ≤ volIdx ∧
      volIdx ≤ (v.getLast hne).mIndex - (v.head hne).mIndex + 1 := by
  refine ⟨_, curveIndex_scaled v c lo hi hne hneq, ?_⟩
  have hsteps := hs.head_le_last v hne
  have hS : 0 ≤ 1 + (v.getLast hne).mIndex - (v.head hne).mIndex := by omega
  have hrange := remapIndex_some_range i lo hi c hr
  by_cases hlt : lo < hi
  · obtain ⟨h1, h2⟩ := hrange.1 (le_of_lt hlt)
    have hn : 0 ≤ (1 + (v.getLast hne).mIndex - (v.head hne).mIndex) * (c - lo) :=
      Int.mul_nonneg hS (by omega)
    have hle : (1 + (v.getLast hne).mIndex - (v.head hne).mIndex) * (c - lo)
        ≤ (1 + (v.getLast hne).mIndex - (v.head hne).mIndex) * (hi - lo) :=
      Int.mul_le_mul_of_nonneg_left (by omega) hS
    rw [Int.tdiv_eq_ediv hn (by omega)]
    constructor
    · exact Int.ediv_nonneg hn (by omega)
    · have h3 := Int.ediv_le_ediv (by omega : 0 < hi - lo) hle
      rw [Int.mul_ediv_cancel _ (by omega : hi - lo ≠ 0)] at h3
      omega
  · rcases hrange.2 (by omega) with h | h
    · subst h
      simp
      omega
    · subst h
      rw [Int.mul_tdiv_cancel _ (by omega : c - lo ≠ 0)]
      omega

/-! ## Claims -/

/-- C1. On a non-empty curve, a negative `volIndexMin` or `volIndexMax` gives `NAN` for
every `indexInUi`, zero and out-of-range values included: the check of line 29 comes
before the mute shortcut and before the clamping. -/
theorem volIndexToDb_negative_bound_nan (curve : List CurvePoint)
    (indexInUi volIndexMin volIndexMax : Int) (hne : curve ≠ [])
    (hneg : volIndexMin < 0 ∨ volIndexMax < 0) :
    volIndexToDb curve indexInUi volIndexMin volIndexMax = .ok .nan := by
  unfold volIndexToDb
  rw [isEmpty_eq_false_of_ne_nil hne]
  simp [hneg]

theorem volIndexToDb_negative_bound_nan_witness :
    exampleCurve ≠ [] ∧ ((5 : Int) < 0 ∨ (-1 : Int) < 0) ∧
      volIndexToDb exampleCurve 0 5 (-1) = .ok .nan :=
  ⟨by decide, by decide,
    volIndexToDb_negative_bound_nan exampleCurve 0 5 (-1) (by decide) (by decide)⟩

/-- C2. On a non-empty curve, whatever its points, `indexInUi = 0` with `volIndexMin = k > 0`
and `volIndexMax >= 0` gives `VOLUME_MIN_DB`. -/
theorem volIndexToDb_zero_below_min_mute (curve : List CurvePoint) (k volIndexMax : Int)
    (hne : curve ≠ []) (hk : 0 < k) (hmax : 0 ≤ volIndexMax) :
    volIndexToDb curve 0 k volIndexMax = .ok .volumeMinDb := by
  unfold volIndexToDb remapIndex
  rw [isEmpty_eq_false_of_ne_nil hne]
  have h1 : ¬ (k < 0 ∨ volIndexMax < 0) := by omega
  simp [h1, hk]

theorem volIndexToDb_zero_below_min_mute_witness :
    exampleCurve ≠ [] ∧ (0 : Int) < 3 ∧ (0 : Int) ≤ 100 ∧
      volIndexToDb exampleCurve 0 3 100 = .ok .volumeMinDb :=
  ⟨by decide, by decide, by decide,
    volIndexToDb_zero_below_min_mute exampleCurve 3 100 (by decide) (by decide) (by decide)⟩

/-- C3. Clamping: on a non-empty curve with `0 <= volIndexMin <= volIndexMax`, every
`i > volIndexMax` evaluates as `volIndexMax`, every `i < volIndexMin` other than 0 evaluates
as `volIndexMin`, and outside the mute case `i = 0 < volIndexMin` the result depends on `i`
only through `clamp i volIndexMin volIndexMax`. -/
theorem volIndexToDb_clamp (curve : List CurvePoint) (volIndexMin volIndexMax : Int)
    (_hne : curve ≠ []) (_hmin : 0 ≤ volIndexMin) (hle : volIndexMin ≤ volIndexMax) :
    (∀ i : Int, volIndexMax < i →
      volIndexToDb curve i volIndexMin volIndexMax
        = volIndexToDb curve volIndexMax volIndexMin volIndexMax) ∧
    (∀ i : Int, i < volIndexMin → i ≠ 0 →
      volIndexToDb curve i volIndexMin volIndexMax
        = volIndexToDb curve volIndexMin volIndexMin volIndexMax) ∧
    (∀ i : Int, ¬ (i = 0 ∧ 0 < volIndexMin) →
      volIndexToDb curve i volIndexMin volIndexMax
        = volIndexToDb curve (clamp i volIndexMin volIndexMax) volIndexMin volIndexMax) := by
  have key : ∀ i : Int, ¬ (i = 0 ∧ 0 < volIndexMin) →
      volIndexToDb curve i volIndexMin volIndexMax
        = volIndexToDb curve (clamp i volIndexMin volIndexMax) volIndexMin volIndexMax := by
    intro i hi
    apply volIndexToDb_congr_remap
    rw [remapIndex_eq_clamp i _ _ hle hi]
    have hc : ¬ (clamp i volIndexMin volIndexMax = 0 ∧ 0 < volIndexMin) := by
      unfold clamp; omega
    rw [remapIndex_eq_clamp _ _ _ hle hc]
    congr 1
    unfold clamp; omega
  refine ⟨?_, ?_, key⟩
  · intro i hi
    rw [key i (by omega)]
    congr 1
    unfold clamp; omega
  · intro i hi h0
    rw [key i (fun h => h0 h.1)]
    congr 1
    unfold clamp; omega

theorem volIndexToDb_clamp_witness :
    exampleCurve ≠ [] ∧ (0 : Int) ≤ 10 ∧ (10 : Int) ≤ 90 ∧
    ((∀ i : Int, 90 < i →
      volIndexToDb exampleCurve i 10 90 = volIndexToDb exampleCurve 90 10 90) ∧
    (∀ i : Int, i < 10 → i ≠ 0 →
      volIndexToDb exampleCurve i 10 90 = volIndexToDb exampleCurve 10 10 90) ∧
    (∀ i : Int, ¬ (i = 0 ∧ (0 : Int) < 10) →
      volIndexToDb exampleCurve i 10 90
        = volIndexToDb exampleCurve (clamp i 10 90) 10 90)) :=
  ⟨by decide, by decide, by decide,
    volIndexToDb_clamp exampleCurve 10 90 (by decide) (by decide) (by decide)⟩

/-- C4. On a non-empty curve with strictly increasing indices, with `0 <= min < max` and
`indexInUi` in `[min, max]`, the evaluation returns, and its result is never `NAN`: it is
`VOLUME_MIN_DB` or a value `d` (exact real arithmetic) with
`minAttenuation / 100 <= d <= maxAttenuation / 100`. -/
theorem volIndexToDb_in_range_bounded (VOLUME_MIN_DB : ℝ) (curve : List CurvePoint)
    (indexInUi volIndexMin volIndexMax : Int) (hne : curve ≠ []) (_hs : SortedByIndex curve)
    (hmin : 0 ≤ volIndexMin) (hlt : volIndexMin < volIndexMax)
    (h1 : volIndexMin ≤ indexInUi) (h2 : indexInUi ≤ volIndexMax) :
    ∃ r : Decibels, volIndexToDb curve indexInUi volIndexMin volIndexMax = .ok r ∧ r ≠ .nan ∧
      (r = .volumeMinDb ∨ ∃ d : ℝ, r.toReal VOLUME_MIN_DB = some d ∧
        (minAttenuation curve : ℝ) / 100 ≤ d ∧ d ≤ (maxAttenuation curve : ℝ) / 100) := by
  rw [volIndexToDb_eq_lookupDb curve indexInUi volIndexMin volIndexMax indexInUi _ hne hmin
    (by omega) (remapIndex_in_range _ _ _ h1 h2)
    (curveIndex_scaled curve _ _ _ hne (by omega))]
  exact lookupDb_bounded VOLUME_MIN_DB curve _ hne

theorem volIndexToDb_in_range_bounded_witness :
    exampleCurve ≠ [] ∧ SortedByIndex exampleCurve ∧ (0 : Int) ≤ 0 ∧ (0 : Int) < 100 ∧
    (0 : Int) ≤ 75 ∧ (75 : Int) ≤ 100 ∧
    ∃ r : Decibels, volIndexToDb exampleCurve 75 0 100 = .ok r ∧ r ≠ .nan ∧
      (r = .volumeMinDb ∨ ∃ d : ℝ, r.toReal (-758) = some d ∧
        (minAttenuation exampleCurve : ℝ) / 100 ≤ d ∧
        d ≤ (maxAttenuation exampleCurve : ℝ) / 100) :=
  ⟨by decide, by decide, by decide, by decide, by decide, by decide,
    volIndexToDb_in_range_bounded (-758) exampleCurve 75 0 100 (by decide) (by decide)
      (by decide) (by decide) (by decide) (by decide)⟩

/-- C5, as stated, fails: with `VOLUME_MIN_DB = -758` the curve `{(1, -80000), (100, 0)}`
has strictly increasing indices and attenuations, yet with bounds `(0, 100)` index 0 evaluates
to the mute value -758 and index 1 to the first point, -800. -/
theorem volIndexToDb_monotone_counterexample :
    steepCurve ≠ [] ∧ SortedByIndex steepCurve ∧ AttenuationIncreasing steepCurve ∧
    volIndexToDb steepCurve 0 0 100 = .ok .volumeMinDb ∧
    volIndexToDb steepCurve 1 0 100 = .ok (.attenuation (-80000)) ∧
    ¬ Decibels.le (-758) .volumeMinDb (.attenuation (-80000)) := by
  refine ⟨by decide, by decide, by decide, by decide, by decide, ?_⟩
  rintro ⟨x, y, hx, hy, hxy⟩
  simp only [Decibels.toReal, Option.some.injEq] at hx hy
  rw [← hx, ← hy] at hxy
  norm_num at hxy

/-- C5, amended. Monotonicity: on a non-empty curve with strictly increasing indices (32-bit
values) and strictly increasing attenuations whose first attenuation divided by 100 is at
least `VOLUME_MIN_DB`, with bounds `0 <= min < max`, for `min <= i <= j <= max` the evaluation
at `i` is at most the evaluation at `j` (exact real arithmetic, the mute result taken as
`VOLUME_MIN_DB`). -/
theorem volIndexToDb_monotone (VOLUME_MIN_DB : ℝ) (curve : List CurvePoint)
    (i j volIndexMin volIndexMax : Int) (hne : curve ≠ []) (hs : SortedByIndex curve)
    (hatt : AttenuationIncreasing curve) (hword : (curve.head hne).mIndex < 4294967296)
    (hV : VOLUME_MIN_DB ≤ ((curve.head hne).mAttenuationInMb : ℝ) / 100)
    (hmin : 0 ≤ volIndexMin) (hlt : volIndexMin < volIndexMax)
    (hi : volIndexMin ≤ i) (hij : i ≤ j) (hj : j ≤ volIndexMax) :
    ∃ a b : Decibels, volIndexToDb curve i volIndexMin volIndexMax = .ok a ∧
      volIndexToDb curve j volIndexMin volIndexMax = .ok b ∧
      Decibels.le VOLUME_MIN_DB a b := by
  rw [volIndexToDb_eq_lookupDb curve i volIndexMin volIndexMax i _ hne hmin (by omega)
    (remapIndex_in_range _ _ _ hi (by omega)) (curveIndex_scaled curve _ _ _ hne (by omega))]
  rw [volIndexToDb_eq_lookupDb curve j volIndexMin volIndexMax j _ hne hmin (by omega)
    (remapIndex_in_range _ _ _ (by omega) hj) (curveIndex_scaled curve _ _ _ hne (by omega))]
  have hsteps := hs.head_le_last curve hne
  have hS : 0 ≤ 1 + (curve.getLast hne).mIndex - (curve.head hne).mIndex := by omega
  have hni : 0 ≤ (1 + (curve.getLast hne).mIndex - (curve.head hne).mIndex) * (i - volIndexMin) :=
    Int.mul_nonneg hS (by omega)
  have hnj : 0 ≤ (1 + (curve.getLast hne).mIndex - (curve.head hne).mIndex) * (j - volIndexMin) :=
    Int.mul_nonneg hS (by omega)
  have hle : (1 + (curve.getLast hne).mIndex - (curve.head hne).mIndex) * (i - volIndexMin)
      ≤ (1 + (curve.getLast hne).mIndex - (curve.head hne).mIndex) * (j - volIndexMin) :=
    Int.mul_le_mul_of_nonneg_left (by omega) hS
  apply lookupDb_mono VOLUME_MIN_DB curve _ _ hne hatt hword hV
  · exact Int.tdiv_nonneg hni (by omega)
  · rw [Int.tdiv_eq_ediv hni (by omega), Int.tdiv_eq_ediv hnj (by omega)]
    exact Int.ediv_le_ediv (by omega) hle

theorem volIndexToDb_monotone_witness :
    ∃ (hne : exampleCurve ≠ []), SortedByIndex exampleCurve ∧
    AttenuationIncreasing exampleCurve ∧ (exampleCurve.head hne).mIndex < 4294967296 ∧
    (-758 : ℝ) ≤ ((exampleCurve.head hne).mAttenuationInMb : ℝ) / 100 ∧
    (0 : Int) ≤ 0 ∧ (0 : Int) < 100 ∧ (0 : Int) ≤ 50 ∧ (50 : Int) ≤ 75 ∧ (75 : Int) ≤ 100 ∧
    ∃ a b : Decibels, volIndexToDb exampleCurve 50 0 100 = .ok a ∧
      volIndexToDb exampleCurve 75 0 100 = .ok b ∧ Decibels.le (-758) a b :=
  ⟨by decide, by decide, by decide, by decide, by norm_num [exampleCurve],
    by decide, by decide, by decide, by decide, by decide,
    volIndexToDb_monotone (-758) exampleCurve 50 75 0 100 (by decide) (by decide) (by decide)
      (by decide) (by norm_num [exampleCurve]) (by decide) (by decide) (by decide) (by decide)
      (by decide)⟩

/-- C6. Degenerate bounds `(k, k)` with `k >= 0`: for every `i` with `i != 0` or `k = 0`, the
evaluation is the lookup of the raw curve index `k`, so it equals the evaluation at `i = k`;
and when `k` is the index of a control point of the (sorted) curve the value is the
attenuation of that point divided by 100. -/
theorem volIndexToDb_degenerate_bounds (VOLUME_MIN_DB : ℝ) (curve : List CurvePoint) (i k : Int)
    (hne : curve ≠ []) (hk : 0 ≤ k) (hi : i ≠ 0 ∨ k = 0) :
    volIndexToDb curve i k k = lookupDb curve k ∧
    volIndexToDb curve i k k = volIndexToDb curve k k k ∧
    (SortedByIndex curve → ∀ pt ∈ curve, pt.mIndex = k →
      ∃ r : Decibels, volIndexToDb curve i k k = .ok r ∧
        r.toReal VOLUME_MIN_DB = some ((pt.mAttenuationInMb : ℝ) / 100)) := by
  have hmute : ¬ (i = 0 ∧ 0 < k) := by omega
  have hr : remapIndex i k k = some k := by
    rw [remapIndex_eq_clamp i k k (le_refl _) hmute]
    congr 1
    unfold clamp; omega
  have hlook : volIndexToDb curve i k k = lookupDb curve k :=
    volIndexToDb_eq_lookupDb curve i k k k k hne hk hk hr (curveIndex_degenerate curve k)
  have hself : volIndexToDb curve k k k = lookupDb curve k :=
    volIndexToDb_eq_lookupDb curve k k k k k hne hk hk
      (remapIndex_in_range k k k (le_refl _) (le_refl _)) (curveIndex_degenerate curve k)
  refine ⟨hlook, by rw [hlook, hself], ?_⟩
  intro hs pt hpt hidx
  obtain ⟨q, hq⟩ := List.mem_iff_getElem?.mp hpt
  rw [hlook, ← hidx]
  exact lookupDb_at_point VOLUME_MIN_DB curve hs hne q pt hq

theorem volIndexToDb_degenerate_bounds_witness :
    exampleCurve ≠ [] ∧ (0 : Int) ≤ 50 ∧ ((51 : Int) ≠ 0 ∨ (50 : Int) = 0) ∧
    (volIndexToDb exampleCurve 51 50 50 = lookupDb exampleCurve 50 ∧
    volIndexToDb exampleCurve 51 50 50 = volIndexToDb exampleCurve 50 50 50 ∧
    (SortedByIndex exampleCurve → ∀ pt ∈ exampleCurve, pt.mIndex = 50 →
      ∃ r : Decibels, volIndexToDb exampleCurve 51 50 50 = .ok r ∧
        r.toReal (-758) = some ((pt.mAttenuationInMb : ℝ) / 100))) :=
  ⟨by decide, by decide, by decide,
    volIndexToDb_degenerate_bounds (-758) exampleCurve 51 50 (by decide) (by decide)
      (by decide)⟩

/-- C7. On a curve with no control point every evaluation stops on the assertion
`Invalid volume curve`, negative bounds included: line 28 comes before line 29. -/
theorem volIndexToDb_empty_curve_fatal (indexInUi volIndexMin volIndexMax : Int) :
    volIndexToDb [] indexInUi volIndexMin volIndexMax = .error .invalidVolumeCurve := by
  unfold volIndexToDb
  rfl

/-- C8. Lowest step: on a non-empty sorted curve with non-negative indices (32-bit values, so
the first index is below `2 ^ 32`) and bounds `0 <= min < max`, the evaluation at
`indexInUi = min` is the attenuation of the first point divided by 100 when the first index
is 0, and `VOLUME_MIN_DB` when the first index is greater than 0. -/
theorem volIndexToDb_lowest_step (curve : List CurvePoint) (volIndexMin volIndexMax : Int)
    (hne : curve ≠ []) (hs : SortedByIndex curve) (hnn : ∀ p ∈ curve, 0 ≤ p.mIndex)
    (hword : (curve.head hne).mIndex < 4294967296)
    (hmin : 0 ≤ volIndexMin) (hlt : volIndexMin < volIndexMax) :
    ((curve.head hne).mIndex = 0 →
      volIndexToDb curve volIndexMin volIndexMin volIndexMax
        = .ok (.attenuation (curve.head hne).mAttenuationInMb)) ∧
    (0 < (curve.head hne).mIndex →
      volIndexToDb curve volIndexMin volIndexMin volIndexMax = .ok .volumeMinDb) := by
  have hidx : curveIndex curve volIndexMin volIndexMin volIndexMax = .ok 0 := by
    rw [curveIndex_scaled curve _ _ _ hne (by omega)]
    simp
  have hlook : volIndexToDb curve volIndexMin volIndexMin volIndexMax = lookupDb curve 0 :=
    volIndexToDb_eq_lookupDb curve _ _ _ volIndexMin 0 hne hmin (by omega)
      (remapIndex_in_range _ _ _ (le_refl _) (by omega)) hidx
  have hhead : 0 ≤ (curve.head hne).mIndex := hnn _ (List.head_mem hne)
  have hord : orderOf curve ⟨0, 0⟩ = 0 := by
    cases curve with
    | nil => exact absurd rfl hne
    | cons p ps =>
      have : (0 : Int) ≤ p.mIndex := hhead
      simp [orderOf, this]
  have hcast : toUint32 (curve.head hne).mIndex = (curve.head hne).mIndex :=
    Int.emod_eq_of_lt hhead hword
  rw [hlook, lookupDb_first curve 0 hne hord, hcast]
  have h0 : toUint32 0 = 0 := rfl
  rw [h0]
  constructor
  · intro h
    rw [h]
    simp
  · intro h
    have hneq : (0 : Int) ≠ (curve.head hne).mIndex := by omega
    simp [hneq]

theorem volIndexToDb_lowest_step_witness :
    ∃ (hne : exampleCurve ≠ []), SortedByIndex exampleCurve ∧
    (∀ p ∈ exampleCurve, 0 ≤ p.mIndex) ∧ (exampleCurve.head hne).mIndex < 4294967296 ∧
    (0 : Int) ≤ 0 ∧ (0 : Int) < 100 ∧
    (((exampleCurve.head hne).mIndex = 0 →
      volIndexToDb exampleCurve 0 0 100
        = .ok (.attenuation (exampleCurve.head hne).mAttenuationInMb)) ∧
    (0 < (exampleCurve.head hne).mIndex →
      volIndexToDb exampleCurve 0 0 100 = .ok .volumeMinDb)) ∧
    volIndexToDb exampleCurve 0 0 100 = .ok (.attenuation (-8000)) :=
  ⟨by decide, by decide, by decide, by decide, by decide, by decide,
    volIndexToDb_lowest_step exampleCurve 0 100 (by decide) (by decide) (by decide)
      (by decide) (by decide) (by decide), by decide⟩

/-- C9. Highest step: on a non-empty sorted curve whose first index is 0 or 1, with bounds
`0 <= min < max`, the evaluation at `indexInUi = max` has the value (exact arithmetic) of the
attenuation of the last point divided by 100. -/
theorem volIndexToDb_highest_step (VOLUME_MIN_DB : ℝ) (curve : List CurvePoint)
    (volIndexMin volIndexMax : Int) (hne : curve ≠ []) (hs : SortedByIndex curve)
    (hfirst : (curve.head hne).mIndex = 0 ∨ (curve.head hne).mIndex = 1)
    (hmin : 0 ≤ volIndexMin) (hlt : volIndexMin < volIndexMax) :
    ∃ r : Decibels, volIndexToDb curve volIndexMax volIndexMin volIndexMax = .ok r ∧
      r.toReal VOLUME_MIN_DB = some (((curve.getLast hne).mAttenuationInMb : ℝ) / 100) := by
  have hidx : curveIndex curve volIndexMax volIndexMin volIndexMax
      = .ok (1 + (curve.getLast hne).mIndex - (curve.head hne).mIndex) := by
    rw [curveIndex_scaled curve _ _ _ hne (by omega)]
    rw [Int.mul_tdiv_cancel _ (by omega)]
  rw [volIndexToDb_eq_lookupDb curve _ _ _ volIndexMax _ hne hmin (by omega)
    (remapIndex_in_range _ _ _ (by omega) (le_refl _)) hidx]
  rcases hfirst with h0 | h1
  · rw [h0]
    refine ⟨_, lookupDb_past_last curve _ hne ?_, rfl⟩
    rw [orderOf_eq_length]
    intro p hp
    have := hs.le_last curve hne p hp
    show p.mIndex < 1 + (curve.getLast hne).mIndex - 0
    omega
  · rw [h1]
    have he : 1 + (curve.getLast hne).mIndex - 1 = (curve.getLast hne).mIndex := by omega
    rw [he]
    exact lookupDb_at_point VOLUME_MIN_DB curve hs hne _ _ (getElem?_last curve hne)

theorem volIndexToDb_highest_step_witness :
    ∃ (hne : exampleCurve ≠ []), SortedByIndex exampleCurve ∧
    ((exampleCurve.head hne).mIndex = 0 ∨ (exampleCurve.head hne).mIndex = 1) ∧
    (0 : Int) ≤ 0 ∧ (0 : Int) < 100 ∧
    (∃ r : Decibels, volIndexToDb exampleCurve 100 0 100 = .ok r ∧
      r.toReal (-758) = some (((exampleCurve.getLast hne).mAttenuationInMb : ℝ) / 100)) ∧
    exampleCurve.length ≤ orderOf exampleCurve ⟨101, 0⟩ ∧
    volIndexToDb exampleCurve 100 0 100 = .ok (.attenuation 0) :=
  ⟨by decide, by decide, by decide, by decide, by decide,
    volIndexToDb_highest_step (-758) exampleCurve 0 100 (by decide) (by decide) (by decide)
      (by decide) (by decide), by decide, by decide⟩

/-- C10. Truncating rescale: on a non-empty sorted curve with bounds `0 <= min < max`, for every
`i` outside the mute case `i = 0 < min`, the curve index used for the lookup is
`floor (steps * (c - min) / (max - min))` with `steps = last index - first index + 1` and
`c = clamp i min max`, the quotient being taken over the rationals. -/
theorem curveIndex_truncating_rescale (curve : List CurvePoint) (i volIndexMin volIndexMax : Int)
    (hne : curve ≠ []) (hs : SortedByIndex curve) (hmin : 0 ≤ volIndexMin)
    (hlt : volIndexMin < volIndexMax) (hmute : ¬ (i = 0 ∧ 0 < volIndexMin)) :
    remapIndex i volIndexMin volIndexMax = some (clamp i volIndexMin volIndexMax) ∧
    curveIndex curve (clamp i volIndexMin volIndexMax) volIndexMin volIndexMax
      = .ok ⌊((((curve.getLast hne).mIndex - (curve.head hne).mIndex + 1)
              * (clamp i volIndexMin volIndexMax - volIndexMin) : Int) : ℚ)
            / ((volIndexMax - volIndexMin : Int) : ℚ)⌋ ∧
    volIndexToDb curve i volIndexMin volIndexMax
      = lookupDb curve ⌊((((curve.getLast hne).mIndex - (curve.head hne).mIndex + 1)
              * (clamp i volIndexMin volIndexMax - volIndexMin) : Int) : ℚ)
            / ((volIndexMax - volIndexMin : Int) : ℚ)⌋ := by
  have hr := remapIndex_eq_clamp i volIndexMin volIndexMax (le_of_lt hlt) hmute
  have hsteps := hs.head_le_last curve hne
  have hc : 0 ≤ clamp i volIndexMin volIndexMax - volIndexMin := by
    unfold clamp; omega
  have hidx : curveIndex curve (clamp i volIndexMin volIndexMax) volIndexMin volIndexMax
      = .ok ⌊((((curve.getLast hne).mIndex - (curve.head hne).mIndex + 1)
              * (clamp i volIndexMin volIndexMax - volIndexMin) : Int) : ℚ)
            / ((volIndexMax - volIndexMin : Int) : ℚ)⌋ := by
    rw [curveIndex_scaled curve _ _ _ hne (by omega), floor_div_pos _ _ (by omega)]
    have he : 1 + (curve.getLast hne).mIndex - (curve.head hne).mIndex
        = (curve.getLast hne).mIndex - (curve.head hne).mIndex + 1 := by omega
    rw [he, Int.tdiv_eq_ediv (Int.mul_nonneg (by omega) hc) (by omega)]
  exact ⟨hr, hidx, volIndexToDb_eq_lookupDb curve _ _ _ _ _ hne hmin (by omega) hr hidx⟩

theorem curveIndex_truncating_rescale_witness :
    ∃ (hne : exampleCurve ≠ []), SortedByIndex exampleCurve ∧ (0 : Int) ≤ 0 ∧ (0 : Int) < 100 ∧
    ¬ ((75 : Int) = 0 ∧ (0 : Int) < 0) ∧
    (remapIndex 75 0 100 = some (clamp 75 0 100) ∧
    curveIndex exampleCurve (clamp 75 0 100) 0 100
      = .ok ⌊((((exampleCurve.getLast hne).mIndex - (exampleCurve.head hne).mIndex + 1)
              * (clamp 75 0 100 - 0) : Int) : ℚ) / ((100 - 0 : Int) : ℚ)⌋ ∧
    volIndexToDb exampleCurve 75 0 100
      = lookupDb exampleCurve ⌊((((exampleCurve.getLast hne).mIndex
              - (exampleCurve.head hne).mIndex + 1)
              * (clamp 75 0 100 - 0) : Int) : ℚ) / ((100 - 0 : Int) : ℚ)⌋) ∧
    (exampleCurve.getLast hne).mIndex - (exampleCurve.head hne).mIndex + 1 = 101 ∧
    curveIndex exampleCurve 75 0 100 = .ok 75 :=
  ⟨by decide, by decide, by decide, by decide, by decide,
    curveIndex_truncating_rescale exampleCurve 75 0 100 (by decide) (by decide) (by decide)
      (by decide) (by decide), by decide, by decide⟩

/-- C11. Bracket selection: on a non-empty curve with strictly increasing indices, whenever
the evaluation ends in the interpolation branch, with curve index `c` and rank
`p = orderOf curve c`, then `0 < p < n`, `p` is the smallest rank whose index is at least `c`,
the interpolation used the points of rank `p - 1` and `p`, and
`points[p-1].index < c <= points[p].index`; hence the denominator of the interpolation
parameter `t` is strictly positive and `0 < t <= 1`. -/
theorem volIndexToDb_bracket_selection (curve : List CurvePoint)
    (i volIndexMin volIndexMax a b c x y : Int) (hne : curve ≠ []) (hs : SortedByIndex curve)
    (h : volIndexToDb curve i volIndexMin volIndexMax = .ok (.logInterp a b c x y)) :
    0 < orderOf curve ⟨c, 0⟩ ∧ orderOf curve ⟨c, 0⟩ < curve.length ∧
    (∀ (q : Nat) (pt : CurvePoint), curve[q]? = some pt →
      (c ≤ pt.mIndex ↔ orderOf curve ⟨c, 0⟩ ≤ q)) ∧
    (∃ lo hi : CurvePoint, curve[orderOf curve ⟨c, 0⟩ - 1]? = some lo ∧
      curve[orderOf curve ⟨c, 0⟩]? = some hi ∧
      a = lo.mAttenuationInMb ∧ b = hi.mAttenuationInMb ∧ x = lo.mIndex ∧ y = hi.mIndex ∧
      lo.mIndex < c ∧ c ≤ hi.mIndex) ∧
    0 < (y : ℝ) - (x : ℝ) ∧
    0 < ((c : ℝ) - (x : ℝ)) / ((y : ℝ) - (x : ℝ)) ∧
    ((c : ℝ) - (x : ℝ)) / ((y : ℝ) - (x : ℝ)) ≤ 1 := by
  have hl := volIndexToDb_eq_logInterp curve i volIndexMin volIndexMax a b c x y hne h
  obtain ⟨_, hp0, hpn, lo, hi, hlo, hhi, ha, hb, hx, hy, hxc, hcy⟩ :=
    lookupDb_eq_logInterp curve c a b c x y hne hl
  have ht := normalized_mem c x y hxc hcy
  refine ⟨hp0, hpn, ?_, ⟨lo, hi, hlo, hhi, ha, hb, hx, hy, by omega, by omega⟩, ?_, ht.1, ht.2⟩
  · intro q pt hq
    constructor
    · intro hc
      by_contra hlt
      have := orderOf_lt_index curve ⟨c, 0⟩ q pt (by omega) hq
      have hlt2 : pt.mIndex < c := this
      omega
    · intro hpq
      by_cases he : orderOf curve ⟨c, 0⟩ = q
      · rw [he, hq] at hhi
        cases hhi
        omega
      · have := hs.index_lt curve _ q hi pt (by omega) hhi hq
        omega
  · have hxy : (x : ℝ) < (y : ℝ) := by exact_mod_cast (by omega : x < y)
    linarith

theorem volIndexToDb_bracket_selection_witness :
    exampleCurve ≠ [] ∧ SortedByIndex exampleCurve ∧
    volIndexToDb exampleCurve 75 0 100 = .ok (.logInterp (-2000) 0 75 50 100) ∧
    (0 < orderOf exampleCurve ⟨75, 0⟩ ∧ orderOf exampleCurve ⟨75, 0⟩ < exampleCurve.length ∧
    (∀ (q : Nat) (pt : CurvePoint), exampleCurve[q]? = some pt →
      ((75 : Int) ≤ pt.mIndex ↔ orderOf exampleCurve ⟨75, 0⟩ ≤ q)) ∧
    (∃ lo hi : CurvePoint, exampleCurve[orderOf exampleCurve ⟨75, 0⟩ - 1]? = some lo ∧
      exampleCurve[orderOf exampleCurve ⟨75, 0⟩]? = some hi ∧
      (-2000 : Int) = lo.mAttenuationInMb ∧ (0 : Int) = hi.mAttenuationInMb ∧
      (50 : Int) = lo.mIndex ∧ (100 : Int) = hi.mIndex ∧
      lo.mIndex < 75 ∧ 75 ≤ hi.mIndex) ∧
    0 < ((100 : Int) : ℝ) - ((50 : Int) : ℝ) ∧
    0 < (((75 : Int) : ℝ) - ((50 : Int) : ℝ)) / (((100 : Int) : ℝ) - ((50 : Int) : ℝ)) ∧
    (((75 : Int) : ℝ) - ((50 : Int) : ℝ)) / (((100 : Int) : ℝ) - ((50 : Int) : ℝ)) ≤ 1) :=
  ⟨by decide, by decide, by decide,
    volIndexToDb_bracket_selection exampleCurve 75 0 100 (-2000) 0 75 50 100 (by decide)
      (by decide) (by decide)⟩

/-- C12. Logarithmic interpolation: on a non-empty sorted curve, when the curve index `c` of
an evaluation satisfies `a < c <= b` for two adjacent control points `(a, A)` and `(b, B)`, the
result is the interpolation between them, of value (exact real arithmetic)
`A/100 + log10 (1 + 9 t) * (B/100 - A/100)` with `t = (c - a) / (b - a)`; when `c = b` the
value is `B/100`. -/
theorem volIndexToDb_log_interpolation (VOLUME_MIN_DB : ℝ) (curve : List CurvePoint)
    (i volIndexMin volIndexMax ci c : Int) (q : Nat) (ptA ptB : CurvePoint)
    (hne : curve ≠ []) (hs : SortedByIndex curve)
    (hmin : 0 ≤ volIndexMin) (hmax : 0 ≤ volIndexMax)
    (hr : remapIndex i volIndexMin volIndexMax = some ci)
    (hc : curveIndex curve ci volIndexMin volIndexMax = .ok c)
    (hA : curve[q]? = some ptA) (hB : curve[q + 1]? = some ptB)
    (h1 : ptA.mIndex < c) (h2 : c ≤ ptB.mIndex) :
    volIndexToDb curve i volIndexMin volIndexMax
      = .ok (.logInterp ptA.mAttenuationInMb ptB.mAttenuationInMb c ptA.mIndex ptB.mIndex) ∧
    (Decibels.logInterp ptA.mAttenuationInMb ptB.mAttenuationInMb c ptA.mIndex
        ptB.mIndex).toReal VOLUME_MIN_DB
      = some ((ptA.mAttenuationInMb : ℝ) / 100
          + Real.logb 10 (1 + 9 * (((c : ℝ) - (ptA.mIndex : ℝ))
              / ((ptB.mIndex : ℝ) - (ptA.mIndex : ℝ))))
            * ((ptB.mAttenuationInMb : ℝ) / 100 - (ptA.mAttenuationInMb : ℝ) / 100)) ∧
    (c = ptB.mIndex →
      (Decibels.logInterp ptA.mAttenuationInMb ptB.mAttenuationInMb c ptA.mIndex
          ptB.mIndex).toReal VOLUME_MIN_DB
        = some ((ptB.mAttenuationInMb : ℝ) / 100)) := by
  have hord : orderOf curve ⟨c, 0⟩ = q + 1 := by
    apply orderOf_eq_of_bracket curve c 0 (q + 1) ptB _ hB h2
    intro r x hrq hx
    by_cases he : r = q
    · rw [he, hA] at hx
      cases hx
      exact h1
    · have := hs.index_lt curve r q x ptA (by omega) hx hA
      omega
  have hqn : q + 1 < curve.length := (List.getElem?_eq_some.mp hB).1
  obtain ⟨lo, hi, hlo, hhi, _, _, hl⟩ :=
    lookupDb_interp curve c (by rw [hord]; omega) (by rw [hord]; exact hqn)
  rw [hord] at hlo hhi
  have hlo2 : curve[q]? = some lo := by simpa using hlo
  rw [hA] at hlo2
  rw [hB] at hhi
  cases hlo2
  cases hhi
  refine ⟨?_, ?_, ?_⟩
  · rw [volIndexToDb_eq_lookupDb curve i volIndexMin volIndexMax ci c hne hmin hmax hr hc]
    exact hl
  · rw [toReal_logInterp, logFactor_eq]
  · intro hcb
    rw [hcb]
    exact toReal_logInterp_upper VOLUME_MIN_DB _ _ _ _ (by omega)

theorem volIndexToDb_log_interpolation_witness :
    exampleCurve ≠ [] ∧ SortedByIndex exampleCurve ∧ (0 : Int) ≤ 0 ∧ (0 : Int) ≤ 100 ∧
    remapIndex 75 0 100 = some 75 ∧ curveIndex exampleCurve 75 0 100 = .ok 75 ∧
    exampleCurve[1]? = some ⟨50, -2000⟩ ∧ exampleCurve[1 + 1]? = some ⟨100, 0⟩ ∧
    (50 : Int) < 75 ∧ (75 : Int) ≤ 100 ∧
    (volIndexToDb exampleCurve 75 0 100 = .ok (.logInterp (-2000) 0 75 50 100) ∧
    (Decibels.logInterp (-2000) 0 75 50 100).toReal (-758)
      = some (((-2000 : Int) : ℝ) / 100
          + Real.logb 10 (1 + 9 * ((((75 : Int) : ℝ) - ((50 : Int) : ℝ))
              / (((100 : Int) : ℝ) - ((50 : Int) : ℝ))))
            * (((0 : Int) : ℝ) / 100 - ((-2000 : Int) : ℝ) / 100)) ∧
    ((75 : Int) = 100 →
      (Decibels.logInterp (-2000) 0 75 50 100).toReal (-758)
        = some (((0 : Int) : ℝ) / 100))) ∧
    ∃ d : ℝ, (Decibels.logInterp (-2000) 0 75 50 100).toReal (-758) = some d ∧
      d = -20 + 20 * Real.logb 10 5.5 ∧ -5.2 < d ∧ d < -5.18 :=
  ⟨by decide, by decide, by decide, by decide, by decide, by decide, by decide, by decide,
    by decide, by decide,
    volIndexToDb_log_interpolation (-758) exampleCurve 75 0 100 75 75 1 ⟨50, -2000⟩ ⟨100, 0⟩
      (by decide) (by decide) (by decide) (by decide) (by decide) (by decide) (by decide)
      (by decide) (by decide) (by decide),
    exampleCurve_value_at_75⟩

/-- C13. On a non-empty curve with strictly increasing indices the evaluation returns `NAN`
exactly when `volIndexMin < 0` or `volIndexMax < 0`. The mismatch branch of lines 49-52 is
never taken: with equal bounds the remapped index is the bound. Inverted non-negative bounds
give a result that is not `NAN`, and an interpolated result always has a proper bracket
`x < c <= y`. -/
theorem volIndexToDb_nan_iff_negative_bound (curve : List CurvePoint)
    (i volIndexMin volIndexMax : Int) (hne : curve ≠ []) (_hs : SortedByIndex curve) :
    (volIndexToDb curve i volIndexMin volIndexMax = .ok .nan
      ↔ (volIndexMin < 0 ∨ volIndexMax < 0)) ∧
    volIndexToDb curve i volIndexMin volIndexMax ≠ .error .invalidVolumeIndexRange ∧
    (∀ c : Int, remapIndex i volIndexMin volIndexMax = some c → volIndexMin = volIndexMax →
      c = volIndexMin ∧ curveIndex curve c volIndexMin volIndexMax = .ok volIndexMin) ∧
    (0 ≤ volIndexMax → volIndexMax < volIndexMin →
      ∃ r : Decibels, volIndexToDb curve i volIndexMin volIndexMax = .ok r ∧ r ≠ .nan) ∧
    (∀ a b c x y : Int,
      volIndexToDb curve i volIndexMin volIndexMax = .ok (.logInterp a b c x y) →
        x < c ∧ c ≤ y) := by
  have hcases := volIndexToDb_cases curve i volIndexMin volIndexMax hne
  have hnonneg : ¬ (volIndexMin < 0 ∨ volIndexMax < 0) →
      ∃ r : Decibels, volIndexToDb curve i volIndexMin volIndexMax = .ok r ∧ r ≠ .nan := by
    intro hnn
    rcases hcases with ⟨_, h⟩ | ⟨h, _⟩ | ⟨c, volIdx, _, _, _, _, h⟩
    · exact absurd h hnn
    · exact ⟨_, h, by simp⟩
    · rw [h]
      exact lookupDb_total curve volIdx hne
  refine ⟨⟨?_, ?_⟩, ?_, ?_, ?_, ?_⟩
  · intro h
    by_contra hnn
    obtain ⟨r, hr, hnan⟩ := hnonneg hnn
    rw [hr] at h
    cases h
    exact hnan rfl
  · intro hneg
    rcases hcases with ⟨h, _⟩ | ⟨_, h1, h2, _⟩ | ⟨c, volIdx, h1, h2, _⟩
    · exact h
    · omega
    · omega
  · intro h
    rcases hcases with ⟨h1, _⟩ | ⟨h1, _⟩ | ⟨c, volIdx, _, _, _, _, h1⟩
    · rw [h1] at h
      cases h
    · rw [h1] at h
      cases h
    · obtain ⟨r, hr, _⟩ := lookupDb_total curve volIdx hne
      rw [h1, hr] at h
      cases h
  · intro c hr heq
    subst heq
    have hc := remapIndex_degenerate i volIndexMin c hr
    subst hc
    exact ⟨rfl, curveIndex_degenerate curve c⟩
  · intro h1 h2
    exact hnonneg (by omega)
  · intro a b c x y h
    have hl := volIndexToDb_eq_logInterp curve i volIndexMin volIndexMax a b c x y hne h
    obtain ⟨_, _, _, _, _, _, _, _, _, _, _, hxc, hcy⟩ :=
      lookupDb_eq_logInterp curve c a b c x y hne hl
    exact ⟨hxc, hcy⟩

theorem volIndexToDb_nan_iff_negative_bound_witness :
    exampleCurve ≠ [] ∧ SortedByIndex exampleCurve ∧
    ((volIndexToDb exampleCurve 5 7 3 = .ok .nan ↔ ((7 : Int) < 0 ∨ (3 : Int) < 0)) ∧
    volIndexToDb exampleCurve 5 7 3 ≠ .error .invalidVolumeIndexRange ∧
    (∀ c : Int, remapIndex 5 7 3 = some c → (7 : Int) = 3 →
      c = 7 ∧ curveIndex exampleCurve c 7 3 = .ok 7) ∧
    ((0 : Int) ≤ 3 → (3 : Int) < 7 →
      ∃ r : Decibels, volIndexToDb exampleCurve 5 7 3 = .ok r ∧ r ≠ .nan) ∧
    (∀ a b c x y : Int,
      volIndexToDb exampleCurve 5 7 3 = .ok (.logInterp a b c x y) → x < c ∧ c ≤ y)) ∧
    volIndexToDb exampleCurve 5 7 3 = .ok (.attenuation (-8000)) :=
  ⟨by decide, by decide,
    volIndexToDb_nan_iff_negative_bound exampleCurve 5 7 3 (by decide) (by decide),
    by decide⟩

/-- C14, as stated, fails in its last part: on the sorted curve `{(10, -5000), (20, 0)}` with
bounds `(0, 100)` and index 100 the curve index is `steps = 11`, and the upper bracket of the
interpolation is the control point of index 20, which is greater than `steps`. -/
theorem curveIndex_upper_bracket_counterexample :
    SortedByIndex offsetCurve ∧
    offsetCurve.head? = some ⟨10, -5000⟩ ∧ offsetCurve.getLast? = some ⟨20, 0⟩ ∧
    (20 : Int) - 10 + 1 = 11 ∧
    remapIndex 100 0 100 = some 100 ∧ curveIndex offsetCurve 100 0 100 = .ok 11 ∧
    orderOf offsetCurve ⟨11, 0⟩ = 1 ∧ offsetCurve[1]? = some ⟨20, 0⟩ ∧
    volIndexToDb offsetCurve 100 0 100 = .ok (.logInterp (-5000) 0 11 10 20) ∧
    (11 : Int) < 20 := by
  decide

/-- C14, amended. On a non-empty sorted curve, with non-negative bounds `min != max` and an
index outside the mute shortcut, the curve index `volIdx` used for the lookup satisfies
`0 <= volIdx <= steps` with `steps = last index - first index + 1`; it is never negative, so
the cast of line 63 keeps its value (for `steps` below `2 ^ 32`); the rank of `volIdx` is at
most the rank of `steps`, so no control point after the first one of index at least `steps`
is the upper bracket, and the lower bracket of an interpolation has an index below `steps`. -/
theorem curveIndex_within_steps (curve : List CurvePoint) (i volIndexMin volIndexMax : Int)
    (hne : curve ≠ []) (hs : SortedByIndex curve)
    (hmin : 0 ≤ volIndexMin) (hmax : 0 ≤ volIndexMax) (hneq : volIndexMin ≠ volIndexMax)
    (hmute : ¬ (i = 0 ∧ 0 < volIndexMin)) :
    ∃ c volIdx : Int, remapIndex i volIndexMin volIndexMax = some c ∧
      curveIndex curve c volIndexMin volIndexMax = .ok volIdx ∧
      volIndexToDb curve i volIndexMin volIndexMax = lookupDb curve volIdx ∧
      0 ≤ volIdx ∧ volIdx ≤ (curve.getLast hne).mIndex - (curve.head hne).mIndex + 1 ∧
      ((curve.getLast hne).mIndex - (curve.head hne).mIndex + 1 < 4294967296 →
        toUint32 volIdx = volIdx) ∧
      orderOf curve ⟨volIdx, 0⟩
        ≤ orderOf curve ⟨(curve.getLast hne).mIndex - (curve.head hne).mIndex + 1, 0⟩ ∧
      (∀ a b cc x y : Int,
        volIndexToDb curve i volIndexMin volIndexMax = .ok (.logInterp a b cc x y) →
          x < (curve.getLast hne).mIndex - (curve.head hne).mIndex + 1) := by
  obtain ⟨c, hr⟩ := remapIndex_some_of_not_mute i volIndexMin volIndexMax hmute
  obtain ⟨volIdx, hc, h0, h1⟩ := curveIndex_range curve i volIndexMin volIndexMax c hne hs hneq hr
  have hlook := volIndexToDb_eq_lookupDb curve i volIndexMin volIndexMax c volIdx hne hmin hmax
    hr hc
  refine ⟨c, volIdx, hr, hc, hlook, h0, h1, ?_, ?_, ?_⟩
  · intro hw
    exact Int.emod_eq_of_lt h0 (by omega)
  · exact orderOf_mono curve _ _ h1
  · intro a b cc x y h
    rw [hlook] at h
    obtain ⟨hcc, _, _, _, _, _, _, _, _, _, _, hxc, _⟩ :=
      lookupDb_eq_logInterp curve volIdx a b cc x y hne h
    omega

theorem curveIndex_within_steps_witness :
    ∃ (hne : offsetCurve ≠ []), SortedByIndex offsetCurve ∧ (0 : Int) ≤ 0 ∧ (0 : Int) ≤ 100 ∧
    (0 : Int) ≠ 100 ∧ ¬ ((100 : Int) = 0 ∧ (0 : Int) < 0) ∧
    ∃ c volIdx : Int, remapIndex 100 0 100 = some c ∧
      curveIndex offsetCurve c 0 100 = .ok volIdx ∧
      volIndexToDb offsetCurve 100 0 100 = lookupDb offsetCurve volIdx ∧
      0 ≤ volIdx ∧ volIdx ≤ (offsetCurve.getLast hne).mIndex - (offsetCurve.head hne).mIndex + 1 ∧
      ((offsetCurve.getLast hne).mIndex - (offsetCurve.head hne).mIndex + 1 < 4294967296 →
        toUint32 volIdx = volIdx) ∧
      orderOf offsetCurve ⟨volIdx, 0⟩
        ≤ orderOf offsetCurve
            ⟨(offsetCurve.getLast hne).mIndex - (offsetCurve.head hne).mIndex + 1, 0⟩ ∧
      (∀ a b cc x y : Int,
        volIndexToDb offsetCurve 100 0 100 = .ok (.logInterp a b cc x y) →
          x < (offsetCurve.getLast hne).mIndex - (offsetCurve.head hne).mIndex + 1) :=
  ⟨by decide, by decide, by decide, by decide, by decide, by decide,
    curveIndex_within_steps offsetCurve 100 0 100 (by decide) (by decide) (by decide)
      (by decide) (by decide) (by decide)⟩

/-- C15. On a non-empty curve with strictly increasing indices every evaluation returns
without a fault: the accesses at ranks 0 and `n - 1` are within the vector, the integer
division is only reached with a non-zero divisor and succeeds, every lookup returns, and in the
interpolation branch the accesses at ranks `p - 1` and `p` are within the vector and the
divisor `maxIdx - minIdx` is not zero. -/
theorem volIndexToDb_total (curve : List CurvePoint) (i volIndexMin volIndexMax : Int)
    (hne : curve ≠ []) (_hs : SortedByIndex curve) :
    (∃ r : Decibels, volIndexToDb curve i volIndexMin volIndexMax = .ok r) ∧
    (∃ first last : CurvePoint, elemAt curve 0 = .ok first ∧
      elemAt curve (curve.length - 1) = .ok last) ∧
    (∀ c : Int, volIndexMin ≠ volIndexMax → volIndexMax - volIndexMin ≠ 0 ∧
      ∃ volIdx : Int, curveIndex curve c volIndexMin volIndexMax = .ok volIdx) ∧
    (∀ volIdx : Int, ∃ r : Decibels, lookupDb curve volIdx = .ok r) ∧
    (∀ volIdx : Int, 0 < orderOf curve ⟨volIdx, 0⟩ → orderOf curve ⟨volIdx, 0⟩ < curve.length →
      ∃ lo hi : CurvePoint, elemAt curve (orderOf curve ⟨volIdx, 0⟩ - 1) = .ok lo ∧
        elemAt curve (orderOf curve ⟨volIdx, 0⟩) = .ok hi ∧
        lookupDb curve volIdx
          = .ok (.logInterp lo.mAttenuationInMb hi.mAttenuationInMb volIdx lo.mIndex
              hi.mIndex) ∧
        hi.mIndex - lo.mIndex ≠ 0 ∧ (hi.mIndex : ℝ) - (lo.mIndex : ℝ) ≠ 0) := by
  refine ⟨?_, ⟨_, _, elemAt_head curve hne, elemAt_last curve hne⟩, ?_, ?_, ?_⟩
  · rcases volIndexToDb_cases curve i volIndexMin volIndexMax hne with
      ⟨h, _⟩ | ⟨h, _⟩ | ⟨c, volIdx, _, _, _, _, h⟩
    · exact ⟨_, h⟩
    · exact ⟨_, h⟩
    · obtain ⟨r, hr, _⟩ := lookupDb_total curve volIdx hne
      exact ⟨r, by rw [h, hr]⟩
  · intro c hneq
    exact ⟨by omega, _, curveIndex_scaled curve c volIndexMin volIndexMax hne hneq⟩
  · intro volIdx
    obtain ⟨r, hr, _⟩ := lookupDb_total curve volIdx hne
    exact ⟨r, hr⟩
  · intro volIdx h0 hn
    obtain ⟨lo, hi, hlo, hhi, h1, h2, hl⟩ := lookupDb_interp curve volIdx h0 hn
    refine ⟨lo, hi, elemAt_eq_ok hlo, elemAt_eq_ok hhi, hl, by omega, ?_⟩
    have hlt : (lo.mIndex : ℝ) < (hi.mIndex : ℝ) := by
      exact_mod_cast (by omega : lo.mIndex < hi.mIndex)
    intro h
    linarith

theorem volIndexToDb_total_witness :
    exampleCurve ≠ [] ∧ SortedByIndex exampleCurve ∧
    ((∃ r : Decibels, volIndexToDb exampleCurve 75 0 100 = .ok r) ∧
    (∃ first last : CurvePoint, elemAt exampleCurve 0 = .ok first ∧
      elemAt exampleCurve (exampleCurve.length - 1) = .ok last) ∧
    (∀ c : Int, (0 : Int) ≠ 100 → (100 : Int) - 0 ≠ 0 ∧
      ∃ volIdx : Int, curveIndex exampleCurve c 0 100 = .ok volIdx) ∧
    (∀ volIdx : Int, ∃ r : Decibels, lookupDb exampleCurve volIdx = .ok r) ∧
    (∀ volIdx : Int, 0 < orderOf exampleCurve ⟨volIdx, 0⟩ →
      orderOf exampleCurve ⟨volIdx, 0⟩ < exampleCurve.length →
      ∃ lo hi : CurvePoint, elemAt exampleCurve (orderOf exampleCurve ⟨volIdx, 0⟩ - 1) = .ok lo ∧
        elemAt exampleCurve (orderOf exampleCurve ⟨volIdx, 0⟩) = .ok hi ∧
        lookupDb exampleCurve volIdx
          = .ok (.logInterp lo.mAttenuationInMb hi.mAttenuationInMb volIdx lo.mIndex
              hi.mIndex) ∧
        hi.mIndex - lo.mIndex ≠ 0 ∧ (hi.mIndex : ℝ) - (lo.mIndex : ℝ) ≠ 0)) :=
  ⟨by decide, by decide,
    volIndexToDb_total exampleCurve 75 0 100 (by decide) (by decide)⟩

end android
